import Mathlib

/-!
# Mountain-Generator: height field, bilinear primitives, upscaling, erosion

A shallow embedding of `main.go` and `simulation.go`.

Conventions of the embedding.

* `float64` values are rationals (`ℚ`): arithmetic is exact, there is no
  rounding.  The one float division whose divisor can be zero, the one in
  `ScaleUp`, is modelled as a fallible operation (`fdiv`): a zero divisor
  yields `Fault.notANumber`, as `0.0/0.0` is NaN in Go and every later product
  and sum with it is NaN too.
* Go `int` is `ℤ` (no wrap-around: a grid whose index arithmetic overflows
  64 bits cannot be allocated).
* A Go run-time panic (slice index out of range, `make` with a negative
  length) is an `Except.error`; every function that touches a slice returns
  `Except Fault _`.
* `math.Sqrt` and the draws of `rand.Float64` are parameters of the erosion
  model.  The shared generator of `math/rand` is the parameter `Rand` of the
  noise model: `rand.Seed` puts it in a state fixed by the seed, as its
  documentation says, and `rand.Float64` is a function of the state.
-/

namespace MountainGenerator

/-! ## Run-time faults and slices -/

/-- What can go wrong while the program runs. -/
inductive Fault where
  | indexOutOfRange
  | negativeLength
  | notANumber
deriving DecidableEq

/-- Read `s[i]` of a Go slice: panics outside `0 ≤ i < len(s)`. -/
def sliceGet (s : List ℚ) (i : ℤ) : Except Fault ℚ :=
  if 0 ≤ i ∧ i < (s.length : ℤ) then .ok (s.getD i.toNat 0) else .error .indexOutOfRange

/-- Write `s[i] = v` of a Go slice: panics outside `0 ≤ i < len(s)`. -/
def sliceSet (s : List ℚ) (i : ℤ) (v : ℚ) : Except Fault (List ℚ) :=
  if 0 ≤ i ∧ i < (s.length : ℤ) then .ok (s.set i.toNat v) else .error .indexOutOfRange

/-- Go's `make([]float64, n)`: a zero-filled slice, a panic when `n < 0`. -/
def makeSlice (n : ℤ) : Except Fault (List ℚ) :=
  if n < 0 then .error .negativeLength else .ok (List.replicate n.toNat 0)

/-- Go's builtin `copy(dst, src)`: overwrites the first `min(len dst, len src)`
elements of `dst`. -/
def copySlice (dst src : List ℚ) : List ℚ :=
  src.take (min dst.length src.length) ++ dst.drop (min dst.length src.length)

/-! ## Float helpers -/

/-- Go's conversion `int(f)` of a float, and the integer part taken by
`math.Modf`: the fraction is discarded, rounding toward zero. -/
def trunc (f : ℚ) : ℤ := if 0 ≤ f then ⌊f⌋ else -⌊-f⌋

/-- Go's `math.Modf`: integer part and fractional part, both with the sign of
the argument; they add up to the argument. -/
def Modf (f : ℚ) : ℚ × ℚ := ((trunc f : ℚ), f - (trunc f : ℚ))

/-- Float division; a zero divisor leaves the finite numbers. -/
def fdiv (a b : ℚ) : Except Fault ℚ :=
  if b = 0 then .error .notANumber else .ok (a / b)

/-! ## The terrain -/

/-- The struct `Terrain`. -/
structure Terrain where
  width : ℤ
  height : ℤ
  height_map : List ℚ
deriving DecidableEq

/-- The data-model invariant: the height map has `width*height` cells. -/
def Terrain.WF (t : Terrain) : Prop := (t.height_map.length : ℤ) = t.width * t.height

instance (t : Terrain) : Decidable t.WF := by unfold Terrain.WF; infer_instance

/-- Function `MakeTerrain`. -/
def MakeTerrain (width height : ℤ) : Except Fault Terrain := do
  let hm ← makeSlice (width * height)
  pure { width := width, height := height, height_map := hm }

/-- Method `Copy`. -/
def Terrain.Copy (t : Terrain) : Except Fault Terrain := do
  let t2 ← MakeTerrain t.width t.height
  pure { t2 with height_map := copySlice t2.height_map t.height_map }

/-- Method `HeightAt`. -/
def Terrain.HeightAt (t : Terrain) (x y : ℤ) : Except Fault ℚ :=
  if x ≥ 0 ∧ y ≥ 0 ∧ x ≤ t.width - 1 ∧ y ≤ t.height - 1 then
    sliceGet t.height_map (y * t.width + x)
  else
    .ok 0

/-- Method `AdjustHeightAt`. -/
def Terrain.AdjustHeightAt (t : Terrain) (x y : ℤ) (dh h_min h_max : ℚ) :
    Except Fault Terrain :=
  if x ≥ 0 ∧ y ≥ 0 ∧ x ≤ t.width - 1 ∧ y ≤ t.height - 1 then do
    let old ← sliceGet t.height_map (y * t.width + x)
    let h := min (max (old + dh) h_min) h_max
    let hm ← sliceSet t.height_map (y * t.width + x) h
    pure { t with height_map := hm }
  else
    pure t

/-- Method `HeightAtFractional`. -/
def Terrain.HeightAtFractional (t : Terrain) (x y : ℚ) : Except Fault ℚ := do
  let x0f := (Modf x).1
  let xt := (Modf x).2
  let y0f := (Modf y).1
  let yt := (Modf y).2
  let x0 := trunc x0f
  let y0 := trunc y0f
  let x1 := x0 + 1
  let y1 := y0 + 1
  let h00 ← t.HeightAt x0 y0
  let h10 ← t.HeightAt x1 y0
  let a := h00 * (1 - xt) + h10 * xt
  let h01 ← t.HeightAt x0 y1
  let h11 ← t.HeightAt x1 y1
  let b := h01 * (1 - xt) + h11 * xt
  pure (a * (1 - yt) + b * yt)

/-- Method `AccelerationAtFractional`. -/
def Terrain.AccelerationAtFractional (t : Terrain) (x y : ℚ) : Except Fault (ℚ × ℚ) := do
  let x0f := (Modf x).1
  let xt := (Modf x).2
  let y0f := (Modf y).1
  let yt := (Modf y).2
  let x0 := trunc x0f
  let y0 := trunc y0f
  let x1 := x0 + 1
  let y1 := y0 + 1
  let xa := (← t.HeightAt x0 y0) * (1 - yt) + (← t.HeightAt x0 y1) * yt
  let xb := (← t.HeightAt x1 y0) * (1 - yt) + (← t.HeightAt x1 y1) * yt
  let ya := (← t.HeightAt x0 y0) * (1 - xt) + (← t.HeightAt x1 y0) * xt
  let yb := (← t.HeightAt x0 y1) * (1 - xt) + (← t.HeightAt x1 y1) * xt
  pure (xb - xa, yb - ya)

/-- Method `AdjustTerrainAt`.  The scan `h_min = math.Min(h_min, h)` starts
from `+Inf`, so after the four corners it is their minimum; likewise `h_max`. -/
def Terrain.AdjustTerrainAt (t : Terrain) (x y dh : ℚ) : Except Fault Terrain := do
  let x0f := (Modf x).1
  let xt := (Modf x).2
  let y0f := (Modf y).1
  let yt := (Modf y).2
  let x0 := trunc x0f
  let y0 := trunc y0f
  let x1 := x0 + 1
  let y1 := y0 + 1
  let hs0 ← t.HeightAt x0 y0
  let hs1 ← t.HeightAt x1 y0
  let hs2 ← t.HeightAt x0 y1
  let hs3 ← t.HeightAt x1 y1
  let h_min := min (min (min hs0 hs1) hs2) hs3
  let h_max := max (max (max hs0 hs1) hs2) hs3
  let t1 ← t.AdjustHeightAt x0 y0 (dh * (1 - xt) * (1 - yt)) h_min h_max
  let t2 ← t1.AdjustHeightAt x1 y0 (dh * xt * (1 - yt)) h_min h_max
  let t3 ← t2.AdjustHeightAt x0 y1 (dh * (1 - xt) * yt) h_min h_max
  t3.AdjustHeightAt x1 y1 (dh * xt * yt) h_min h_max

/-- Function `Interp`: cubic interpolation. -/
def Interp (a b c d x : ℚ) : ℚ :=
  x * (x * (x * (-a + b - c + d) + 2 * a - 2 * b + c - d) - a + c) + b


/-! ## Loops -/

/-- The counted loop `for k := 0; k < n; k++ { body }` over a state `σ`: the
first `n` passes of the body, in order; a panic in a pass aborts the loop. -/
def forLoop {σ : Type} (body : ℕ → σ → Except Fault σ) : ℕ → σ → Except Fault σ
  | 0, s => .ok s
  | k + 1, s => forLoop body k s >>= body k

/-! ## Upscaling -/

/-- The body of the inner loop of `ScaleUp`: one destination cell.  The state
is the running index `i` and the destination height map.  `scale_x` and
`scale_y` are the results of the two float divisions; a non-finite scale
makes the sampled value non-finite. -/
def scaleCell (t : Terrain) (scale_x scale_y : Except Fault ℚ) (y x : ℕ)
    (s : ℤ × List ℚ) : Except Fault (ℤ × List ℚ) := do
  let sx ← scale_x
  let sy ← scale_y
  let v ← t.HeightAtFractional ((x : ℚ) * sx) ((y : ℚ) * sy)
  let hm ← sliceSet s.2 s.1 v
  pure (s.1 + 1, hm)

/-- Method `ScaleUp`. -/
def Terrain.ScaleUp (t : Terrain) (scale : ℤ) : Except Fault Terrain := do
  let new_t ← MakeTerrain (t.width * scale) (t.height * scale)
  let scale_x := fdiv ((t.width - 1 : ℤ) : ℚ) ((new_t.width - 1 : ℤ) : ℚ)
  let scale_y := fdiv ((t.height - 1 : ℤ) : ℚ) ((new_t.height - 1 : ℤ) : ℚ)
  let s ← forLoop
    (fun y s => forLoop (fun x s => scaleCell t scale_x scale_y y x s) new_t.width.toNat s)
    new_t.height.toNat ((0 : ℤ), new_t.height_map)
  pure { new_t with height_map := s.2 }

/-! ## Erosion -/

/-- The struct `RainDrop`. -/
structure RainDrop where
  x : ℚ
  y : ℚ
  vx : ℚ
  vy : ℚ
  dirt : ℚ
deriving DecidableEq

/-- The step loop of one drop, `for sim_i := 0; sim_i < 2000; sim_i++`, with
its two `break`s.  `fuel` is the number of passes still allowed, `sim_i` the
loop counter; `t` is the visible terrain (read by `AccelerationAtFractional`),
`t_copy` the working copy (written by `AdjustTerrainAt`).  The result also
counts the passes that got beyond the off-grid test. -/
def dropLoop (sqrt : ℚ → ℚ) (t : Terrain) :
    ℕ → ℤ → RainDrop → Terrain → Except Fault (RainDrop × Terrain × ℕ)
  | 0, _, drop, t_copy => .ok (drop, t_copy, 0)
  | fuel + 1, sim_i, drop, t_copy =>
    if drop.x < 0 ∨ drop.y < 0 ∨ drop.x > (t.width : ℚ) ∨ drop.y > (t.height : ℚ) then
      .ok (drop, t_copy, 0)
    else do
      let a ← t.AccelerationAtFractional drop.x drop.y
      let ax := a.1
      let ay := a.2
      let dt : ℚ := 0.05
      let momentum : ℚ := 0.999
      let vx := -ax * (1 - momentum) + drop.vx * momentum
      let vy := -ay * (1 - momentum) + drop.vy * momentum
      let x := drop.x + vx * dt
      let y := drop.y + vy * dt
      let vel := sqrt (vx * vx + vy * vy)
      let dh := 0.1 * (vel + 2)
      let t_copy1 ← t_copy.AdjustTerrainAt x y (-dh)
      let drop1 : RainDrop := { x := x, y := y, vx := vx, vy := vy, dirt := drop.dirt + dh }
      if sim_i > 100 ∧ |vx| < 0.01 ∧ |vy| < 0.01 then
        .ok (drop1, t_copy1, 1)
      else do
        let r ← dropLoop sqrt t fuel (sim_i + 1) drop1 t_copy1
        pure (r.1, r.2.1, r.2.2 + 1)

/-- One pass of the outer loop of `RunErosionSimulation`: drop number `i`.
The state is the visible terrain and the working copy; `rnd` lists the
successive results of `rand.Float64()`. -/
def simulateDrop (sqrt : ℚ → ℚ) (rnd : ℕ → ℚ) (i : ℕ) (s : Terrain × Terrain) :
    Except Fault (Terrain × Terrain) := do
  let t := s.1
  let t_copy := s.2
  let drop : RainDrop :=
    { x := rnd (2 * i) * (t.width : ℚ), y := rnd (2 * i + 1) * (t.height : ℚ),
      vx := 0, vy := 0, dirt := 0 }
  let r ← dropLoop sqrt t 2000 0 drop t_copy
  let drop := r.1
  let t_copy ← r.2.1.AdjustTerrainAt drop.x drop.y (drop.dirt * 0.1)
  pure ({ t with height_map := copySlice t.height_map t_copy.height_map }, t_copy)

/-- Method `RunErosionSimulation`: the terrain the receiver holds afterwards. -/
def Terrain.RunErosionSimulation (sqrt : ℚ → ℚ) (rnd : ℕ → ℚ) (t : Terrain)
    (num_drops : ℤ) : Except Fault Terrain := do
  let t_copy ← t.Copy
  let s ← forLoop (simulateDrop sqrt rnd) num_drops.toNat (t, t_copy)
  pure s.1

/-! ## The spec's wording of bilinear sampling -/

/-- The spec's `sampleBilinear`: the corner decomposition by `floor`. -/
def sampleBilinearSpec (t : Terrain) (x y : ℚ) : Except Fault ℚ := do
  let x0 : ℤ := ⌊x⌋
  let y0 : ℤ := ⌊y⌋
  let x1 := x0 + 1
  let y1 := y0 + 1
  let xt := x - (x0 : ℚ)
  let yt := y - (y0 : ℚ)
  let top := (← t.HeightAt x0 y0) * (1 - xt) + (← t.HeightAt x1 y0) * xt
  let bottom := (← t.HeightAt x0 y1) * (1 - xt) + (← t.HeightAt x1 y1) * xt
  pure (top * (1 - yt) + bottom * yt)

/-! ## Pure views used in the proofs -/

/-- The bounds test shared by `HeightAt` and `AdjustHeightAt`. -/
def Terrain.inGrid (t : Terrain) (x y : ℤ) : Prop :=
  x ≥ 0 ∧ y ≥ 0 ∧ x ≤ t.width - 1 ∧ y ≤ t.height - 1

instance (t : Terrain) (x y : ℤ) : Decidable (t.inGrid x y) := by
  unfold Terrain.inGrid; infer_instance

/-- The value `HeightAt` reads on a well-formed terrain. -/
def Terrain.cell (t : Terrain) (x y : ℤ) : ℚ :=
  if t.inGrid x y then t.height_map.getD (y * t.width + x).toNat 0 else 0

/-- The terrain `AdjustHeightAt` leaves on a well-formed terrain. -/
def Terrain.adjusted (t : Terrain) (x y : ℤ) (dh h_min h_max : ℚ) : Terrain :=
  if t.inGrid x y then
    { t with height_map :=
        t.height_map.set (y * t.width + x).toNat (min (max (t.cell x y + dh) h_min) h_max) }
  else t

/-- The value `HeightAtFractional` returns on a well-formed terrain. -/
def Terrain.bilinear (t : Terrain) (x y : ℚ) : ℚ :=
  (t.cell (trunc x) (trunc y) * (1 - (x - (trunc x : ℚ)))
      + t.cell (trunc x + 1) (trunc y) * (x - (trunc x : ℚ))) * (1 - (y - (trunc y : ℚ)))
    + (t.cell (trunc x) (trunc y + 1) * (1 - (x - (trunc x : ℚ)))
      + t.cell (trunc x + 1) (trunc y + 1) * (x - (trunc x : ℚ))) * (y - (trunc y : ℚ))

/-- The lower clamping bound of `AdjustTerrainAt`: the least of the four
corner reads of the cell at `(x0,y0)`. -/
def Terrain.cornerMin (t : Terrain) (x0 y0 : ℤ) : ℚ :=
  min (min (min (t.cell x0 y0) (t.cell (x0 + 1) y0)) (t.cell x0 (y0 + 1)))
    (t.cell (x0 + 1) (y0 + 1))

/-- The upper clamping bound of `AdjustTerrainAt`. -/
def Terrain.cornerMax (t : Terrain) (x0 y0 : ℤ) : ℚ :=
  max (max (max (t.cell x0 y0) (t.cell (x0 + 1) y0)) (t.cell x0 (y0 + 1)))
    (t.cell (x0 + 1) (y0 + 1))

/-- The terrain `AdjustTerrainAt` leaves on a well-formed terrain: the four
corner adjustments in the order of the source. -/
def Terrain.deposited (t : Terrain) (x y dh : ℚ) : Terrain :=
  (((t.adjusted (trunc x) (trunc y)
        (dh * (1 - (x - (trunc x : ℚ))) * (1 - (y - (trunc y : ℚ))))
        (t.cornerMin (trunc x) (trunc y)) (t.cornerMax (trunc x) (trunc y))).adjusted
      (trunc x + 1) (trunc y)
        (dh * (x - (trunc x : ℚ)) * (1 - (y - (trunc y : ℚ))))
        (t.cornerMin (trunc x) (trunc y)) (t.cornerMax (trunc x) (trunc y))).adjusted
    (trunc x) (trunc y + 1)
        (dh * (1 - (x - (trunc x : ℚ))) * (y - (trunc y : ℚ)))
        (t.cornerMin (trunc x) (trunc y)) (t.cornerMax (trunc x) (trunc y))).adjusted
  (trunc x + 1) (trunc y + 1)
        (dh * (x - (trunc x : ℚ)) * (y - (trunc y : ℚ)))
        (t.cornerMin (trunc x) (trunc y)) (t.cornerMax (trunc x) (trunc y))

/-- A flat 2x2 terrain used to instantiate the theorems. -/
def flatDemo : Terrain := { width := 2, height := 2, height_map := [5, 5, 5, 5] }

/-- A 2x2 terrain used to instantiate the theorems. -/
def demo : Terrain := { width := 2, height := 2, height_map := [1, 2, 3, 4] }

/-- Every stored height lies in `[lo, hi]`. -/
def Terrain.bounded (t : Terrain) (lo hi : ℚ) : Prop :=
  ∀ v ∈ t.height_map, lo ≤ v ∧ v ≤ hi

/-! ## Noise generation -/

/-- Wrap-around of `int64` arithmetic: the representative of `z` modulo
`2^64` in `[-2^63, 2^63)`. -/
def wrap64 (z : ℤ) : ℤ := (z + 2 ^ 63) % 2 ^ 64 - 2 ^ 63

/-- The shared generator of `math/rand`, which is not part of the
repository: `seed v` is the state `rand.Seed(v)` leaves, `float64 g` the
result of `rand.Float64()` in state `g` and the state it leaves. -/
structure Rand (G : Type) where
  seed : ℤ → G
  float64 : G → ℚ × G

/-- The value `SampleRand` passes to `rand.Seed`.  The arguments are `int64`;
sums and products wrap, `>>` is the arithmetic shift and `^` the bitwise
exclusive or.  As wrapping commutes with `+` and `*`, wrapping the first sum
once is the same as wrapping every operation, also when an argument such as
`p_i+seed` was itself formed with wrap-around. -/
def seedValue (seed x y : ℤ) : ℤ :=
  let s := wrap64 (seed + x * 374761393 + y * 668265263)
  let s := wrap64 (Int.xor s (s >>> 13) * 1274126177)
  Int.xor s (s >>> 16)

/-- Function `SampleRand`, on the state `g` of the shared generator: the
value returned and the state left behind. -/
def SampleRand {G : Type} (R : Rand G) (seed x y : ℤ) (_g : G) : ℚ × G :=
  R.float64 (R.seed (seedValue seed x y))

/-- One pass of the loop over `s_i` in `GenerateTerrain`: the cubic
interpolation across lattice row `yrow`, its four `SampleRand` calls made in
argument order. -/
def sampleRow {G : Type} (R : Rand G) (seed x0 yrow : ℤ) (xt : ℚ) (g : G) : ℚ × G :=
  let a := SampleRand R seed (x0 - 1) yrow g
  let b := SampleRand R seed x0 yrow a.2
  let c := SampleRand R seed (x0 + 1) yrow b.2
  let d := SampleRand R seed (x0 + 2) yrow c.2
  (Interp a.1 b.1 c.1 d.1 xt, d.2)

/-- The body of the loop over `x` in `GenerateTerrain`: one cell of one
layer.  The state is the running index `i`, the height map and the state of
the shared generator. -/
def generateCell {G : Type} (R : Rand G) (seed : ℤ) (p_i : ℕ) (period amplitude : ℚ)
    (y x : ℕ) (s : ℤ × List ℚ × G) : Except Fault (ℤ × List ℚ × G) := do
  let xp ← fdiv (x : ℚ) period
  let yp ← fdiv (y : ℚ) period
  let x0 := trunc xp
  let y0 := trunc yp
  let xt := xp - (x0 : ℚ)
  let yt := yp - (y0 : ℚ)
  let r0 := sampleRow R ((p_i : ℤ) + seed) x0 (y0 - 1 + 0) xt s.2.2
  let r1 := sampleRow R ((p_i : ℤ) + seed) x0 (y0 - 1 + 1) xt r0.2
  let r2 := sampleRow R ((p_i : ℤ) + seed) x0 (y0 - 1 + 2) xt r1.2
  let r3 := sampleRow R ((p_i : ℤ) + seed) x0 (y0 - 1 + 3) xt r2.2
  let old ← sliceGet s.2.1 s.1
  let hm ← sliceSet s.2.1 s.1 (old + Interp r0.1 r1.1 r2.1 r3.1 yt * amplitude)
  pure (s.1 + 1, hm, r3.2)

/-- The body of the loop over `p_i` in `GenerateTerrain`: one layer.  The
state is the amplitude, the period, the height map and the state of the
shared generator; `width` and `height` are those of the terrain. -/
def generateLayer {G : Type} (R : Rand G) (width height : ℤ) (seed : ℤ) (p_i : ℕ)
    (s : ℚ × ℚ × List ℚ × G) : Except Fault (ℚ × ℚ × List ℚ × G) := do
  let amplitude := s.1
  let period := s.2.1
  let r ← forLoop
    (fun y st => forLoop (fun x st => generateCell R seed p_i period amplitude y x st)
      width.toNat st)
    height.toNat ((0 : ℤ), s.2.2.1, s.2.2.2)
  pure (amplitude * 0.3, period * 0.5, r.2.1, r.2.2)

/-- Method `GenerateTerrain`, on the state `g` of the shared generator: the
terrain and the generator state it leaves. -/
def Terrain.GenerateTerrain {G : Type} (R : Rand G) (t : Terrain) (seed : ℤ) (g : G) :
    Except Fault (Terrain × G) := do
  let s ← forLoop (generateLayer R t.width t.height seed) 4 (100, 16, t.height_map, g)
  pure ({ t with height_map := s.2.2.1 }, s.2.2.2)

/-- The lattice noise value: what `SampleRand` returns, which no state of the
generator enters. -/
def latticeNoise {G : Type} (R : Rand G) (seed x y : ℤ) : ℚ :=
  (R.float64 (R.seed (seedValue seed x y))).1

/-- The spec's wording of one layer at cell `(x,y)`: with `x0 = floor(x/period)`,
`y0 = floor(y/period)` and fractions `xt`, `yt`, `Interp` along x on each of
the lattice rows `y0-1 .. y0+2` (columns `x0-1 .. x0+2`), then `Interp` along
y on the four row samples. -/
def bicubicSpec {G : Type} (R : Rand G) (seed : ℤ) (period : ℚ) (x y : ℤ) : ℚ :=
  let xp := (x : ℚ) / period
  let yp := (y : ℚ) / period
  let x0 : ℤ := ⌊xp⌋
  let y0 : ℤ := ⌊yp⌋
  let xt := xp - (x0 : ℚ)
  let yt := yp - (y0 : ℚ)
  let row := fun (s : ℤ) =>
    Interp (latticeNoise R seed (x0 - 1) (y0 + s)) (latticeNoise R seed x0 (y0 + s))
      (latticeNoise R seed (x0 + 1) (y0 + s)) (latticeNoise R seed (x0 + 2) (y0 + s)) xt
  Interp (row (-1)) (row 0) (row 1) (row 2) yt

/-- A toy generator used to instantiate the theorems: the state is an
integer, seeding stores the seed, and a draw returns the last three decimal
digits of the state as a fraction in `[0,1)` and advances the state. -/
def toyRand : Rand ℤ :=
  { seed := fun v => v, float64 := fun g => (((g % 1000 : ℤ) : ℚ) / 1000, g + 1) }

/-- The value one layer adds to cell `(x,y)` before scaling by the amplitude,
as `generateCell` computes it. -/
def layerValue {G : Type} (R : Rand G) (seed : ℤ) (period : ℚ) (x y : ℕ) : ℚ :=
  let xp := (x : ℚ) / period
  let yp := (y : ℚ) / period
  let x0 := trunc xp
  let y0 := trunc yp
  let xt := xp - (x0 : ℚ)
  let yt := yp - (y0 : ℚ)
  let row := fun (s : ℤ) =>
    Interp (latticeNoise R seed (x0 - 1) (y0 - 1 + s)) (latticeNoise R seed x0 (y0 - 1 + s))
      (latticeNoise R seed (x0 + 1) (y0 - 1 + s)) (latticeNoise R seed (x0 + 2) (y0 - 1 + s)) xt
  Interp (row 0) (row 1) (row 2) (row 3) yt

/-- The bicubic sample of the 4x4 lattice block around lattice cell `(0,0)`
(columns and rows `-1 .. 2`) at the fractions `(xt, yt)`. -/
def blockSample {G : Type} (R : Rand G) (seed : ℤ) (xt yt : ℚ) : ℚ :=
  let row := fun (s : ℤ) =>
    Interp (latticeNoise R seed (-1) s) (latticeNoise R seed 0 s)
      (latticeNoise R seed 1 s) (latticeNoise R seed 2 s) xt
  Interp (row (-1)) (row 0) (row 1) (row 2) yt

/-! ## Basic facts -/

@[simp] theorem ok_bind {α β : Type} (a : α) (f : α → Except Fault β) :
    (Except.ok a >>= f) = f a := rfl

@[simp] theorem error_bind {α β : Type} (e : Fault) (f : α → Except Fault β) :
    (Except.error e >>= f) = Except.error e := rfl

@[simp] theorem pure_eq_ok {α : Type} (a : α) : (pure a : Except Fault α) = Except.ok a := rfl

theorem index_bounds {t : Terrain} (hwf : t.WF) {x y : ℤ} (h : t.inGrid x y) :
    0 ≤ y * t.width + x ∧ y * t.width + x < (t.height_map.length : ℤ) := by
  obtain ⟨hx, hy, hxw, hyh⟩ := h
  rw [hwf]
  constructor
  · have : 0 ≤ y * t.width := mul_nonneg hy (by linarith)
    linarith
  · nlinarith

theorem index_inj {t : Terrain} {x y x2 y2 : ℤ} (h : t.inGrid x y) (h2 : t.inGrid x2 y2)
    (he : (y * t.width + x).toNat = (y2 * t.width + x2).toNat) : x = x2 ∧ y = y2 := by
  obtain ⟨hx, hy, hxw, hyh⟩ := h
  obtain ⟨hx2, hy2, hxw2, hyh2⟩ := h2
  have e1 : 0 ≤ y * t.width + x := by
    have : 0 ≤ y * t.width := mul_nonneg hy (by linarith)
    linarith
  have e2 : 0 ≤ y2 * t.width + x2 := by
    have : 0 ≤ y2 * t.width := mul_nonneg hy2 (by linarith)
    linarith
  have he2 : y * t.width + x = y2 * t.width + x2 := by
    have := congrArg (fun n : ℕ => (n : ℤ)) he
    simpa [Int.toNat_of_nonneg e1, Int.toNat_of_nonneg e2] using this
  have hy_eq : y = y2 := by
    rcases lt_trichotomy y y2 with hlt | heq | hgt
    · exfalso
      have : (y + 1) * t.width ≤ y2 * t.width := mul_le_mul_of_nonneg_right (by linarith) (by linarith)
      nlinarith
    · exact heq
    · exfalso
      have : (y2 + 1) * t.width ≤ y * t.width := mul_le_mul_of_nonneg_right (by linarith) (by linarith)
      nlinarith
  subst hy_eq
  exact ⟨by linarith, rfl⟩

theorem HeightAt_eq_cell {t : Terrain} (hwf : t.WF) (x y : ℤ) :
    t.HeightAt x y = .ok (t.cell x y) := by
  unfold Terrain.HeightAt Terrain.cell
  by_cases h : t.inGrid x y
  · have hb := index_bounds hwf h
    have h' := h
    unfold Terrain.inGrid at h'
    simp [h, h', sliceGet, hb]
  · have h' := h
    unfold Terrain.inGrid at h'
    simp [h, h']

theorem AdjustHeightAt_eq_adjusted {t : Terrain} (hwf : t.WF) (x y : ℤ) (dh lo hi : ℚ) :
    t.AdjustHeightAt x y dh lo hi = .ok (t.adjusted x y dh lo hi) := by
  unfold Terrain.AdjustHeightAt Terrain.adjusted
  by_cases h : t.inGrid x y
  · have hb := index_bounds hwf h
    have h' := h
    unfold Terrain.inGrid at h'
    have hc : t.cell x y = t.height_map.getD (y * t.width + x).toNat 0 := by simp [Terrain.cell, h]
    simp [h, h', sliceGet, sliceSet, hb, hc]
  · have h' := h
    unfold Terrain.inGrid at h'
    simp [h, h']


theorem trunc_intCast (n : ℤ) : trunc (n : ℚ) = n := by
  unfold trunc
  split_ifs with h
  · exact Int.floor_intCast n
  · have : ⌊-(n : ℚ)⌋ = -n := by
      rw [← Int.cast_neg]; exact Int.floor_intCast (-n)
    rw [this]; ring

theorem trunc_of_nonneg {f : ℚ} (h : 0 ≤ f) : trunc f = ⌊f⌋ := by
  unfold trunc; simp [h]

theorem trunc_of_isInt {f : ℚ} (h : ((⌊f⌋ : ℤ) : ℚ) = f) : trunc f = ⌊f⌋ := by
  rw [← h, trunc_intCast, Int.floor_intCast]

theorem trunc_Modf_fst (f : ℚ) : trunc (Modf f).1 = trunc f := by
  simp [Modf, trunc_intCast]

theorem Modf_snd (f : ℚ) : (Modf f).2 = f - (trunc f : ℚ) := rfl

theorem adjusted_width (t : Terrain) (x y : ℤ) (dh lo hi : ℚ) :
    (t.adjusted x y dh lo hi).width = t.width := by
  unfold Terrain.adjusted; split_ifs <;> rfl

theorem adjusted_height (t : Terrain) (x y : ℤ) (dh lo hi : ℚ) :
    (t.adjusted x y dh lo hi).height = t.height := by
  unfold Terrain.adjusted; split_ifs <;> rfl

theorem adjusted_length (t : Terrain) (x y : ℤ) (dh lo hi : ℚ) :
    (t.adjusted x y dh lo hi).height_map.length = t.height_map.length := by
  unfold Terrain.adjusted; split_ifs <;> simp

theorem adjusted_WF {t : Terrain} (hwf : t.WF) (x y : ℤ) (dh lo hi : ℚ) :
    (t.adjusted x y dh lo hi).WF := by
  unfold Terrain.WF at *
  rw [adjusted_length, adjusted_width, adjusted_height]; exact hwf

theorem adjusted_inGrid (t : Terrain) (x y : ℤ) (dh lo hi : ℚ) (x2 y2 : ℤ) :
    (t.adjusted x y dh lo hi).inGrid x2 y2 ↔ t.inGrid x2 y2 := by
  unfold Terrain.inGrid
  rw [adjusted_width, adjusted_height]

/-- Reading the adjusted cell gives the clamped sum. -/
theorem adjusted_cell_same {t : Terrain} (hwf : t.WF) {x y : ℤ} (h : t.inGrid x y)
    (dh lo hi : ℚ) :
    (t.adjusted x y dh lo hi).cell x y = min (max (t.cell x y + dh) lo) hi := by
  have hb := index_bounds hwf h
  have hlt : (y * t.width + x).toNat < t.height_map.length := by
    have := hb.2
    omega
  have hg : (t.adjusted x y dh lo hi).inGrid x y := (adjusted_inGrid t x y dh lo hi x y).2 h
  unfold Terrain.cell
  rw [if_pos hg, adjusted_width]
  have hc : t.cell x y = t.height_map[(y * t.width + x).toNat] := by
    simp [Terrain.cell, h, List.getD_eq_getElem?_getD, hlt]
  simp only [Terrain.adjusted, if_pos h]
  simp [List.getD_eq_getElem?_getD, List.getElem?_set, hlt, hc]

/-- Reading any other cell is unaffected by the adjustment. -/
theorem adjusted_cell_other {t : Terrain} (x y : ℤ) (dh lo hi : ℚ) {x2 y2 : ℤ}
    (hne : ¬ (x2 = x ∧ y2 = y)) :
    (t.adjusted x y dh lo hi).cell x2 y2 = t.cell x2 y2 := by
  by_cases h : t.inGrid x y
  · by_cases h2 : t.inGrid x2 y2
    · have hg : (t.adjusted x y dh lo hi).inGrid x2 y2 :=
        (adjusted_inGrid t x y dh lo hi x2 y2).2 h2
      have hidx : (y * t.width + x).toNat ≠ (y2 * t.width + x2).toNat := by
        intro he
        have := index_inj h h2 he
        exact hne ⟨this.1.symm, this.2.symm⟩
      unfold Terrain.cell
      rw [if_pos hg, if_pos h2, adjusted_width]
      simp only [Terrain.adjusted, if_pos h]
      simp [List.getD_eq_getElem?_getD, List.getElem?_set, hidx]
    · have hg : ¬ (t.adjusted x y dh lo hi).inGrid x2 y2 := fun hh =>
        h2 ((adjusted_inGrid t x y dh lo hi x2 y2).1 hh)
      unfold Terrain.cell
      rw [if_neg hg, if_neg h2]
  · unfold Terrain.adjusted
    rw [if_neg h]

/-- An adjustment that writes back the value already stored changes nothing. -/
theorem adjusted_eq_self {t : Terrain} (hwf : t.WF) (x y : ℤ) (dh lo hi : ℚ)
    (hv : t.inGrid x y → min (max (t.cell x y + dh) lo) hi = t.cell x y) :
    t.adjusted x y dh lo hi = t := by
  unfold Terrain.adjusted
  split_ifs with h
  · have hb := index_bounds hwf h
    have hlt : (y * t.width + x).toNat < t.height_map.length := by
      have := hb.2
      omega
    rw [hv h]
    have : t.height_map.set (y * t.width + x).toNat (t.cell x y) = t.height_map := by
      unfold Terrain.cell
      rw [if_pos h]
      apply List.ext_getElem?
      intro n
      by_cases hn : (y * t.width + x).toNat = n
      · subst hn
        simp [List.getElem?_set, hlt, List.getD_eq_getElem?_getD]
      · simp [List.getElem?_set, hn]
    rw [this]
  · rfl

/-! ## Claims on the cell accessors and on `Interp` -/

/-- C5: `Interp(a,b,c,d,0)` is `b` and `Interp(a,b,c,d,1)` is `c`, in exact
arithmetic, for all `a, b, c, d`. -/
theorem C5_Interp_endpoints (a b c d : ℚ) :
    Interp a b c d 0 = b ∧ Interp a b c d 1 = c := by
  constructor <;> (unfold Interp; ring)

/-- C8: on a terrain whose height map has `width*height` cells, `HeightAt`
never fails: inside the grid it returns the value stored at the row-major
index `y*width+x`, and for every other `(x,y)` it returns 0. -/
theorem C8_HeightAt_total (t : Terrain) (hwf : t.WF) (x y : ℤ) :
    (0 ≤ x ∧ x < t.width ∧ 0 ≤ y ∧ y < t.height →
      ∃ v, 0 ≤ y * t.width + x ∧ t.height_map[(y * t.width + x).toNat]? = some v ∧
        t.HeightAt x y = .ok v) ∧
    (¬ (0 ≤ x ∧ x < t.width ∧ 0 ≤ y ∧ y < t.height) → t.HeightAt x y = .ok 0) := by
  constructor
  · rintro ⟨hx, hxw, hy, hyh⟩
    have hg : t.inGrid x y := ⟨hx, hy, by omega, by omega⟩
    have hb := index_bounds hwf hg
    have hlt : (y * t.width + x).toNat < t.height_map.length := by
      have := hb.2
      omega
    refine ⟨t.height_map[(y * t.width + x).toNat], hb.1, ?_, ?_⟩
    · simp [hlt]
    · rw [HeightAt_eq_cell hwf]
      simp [Terrain.cell, hg, List.getD_eq_getElem?_getD, hlt]
  · intro hn
    have hg : ¬ t.inGrid x y := by
      rintro ⟨hx, hy, hxw, hyh⟩
      exact hn ⟨hx, by omega, hy, by omega⟩
    rw [HeightAt_eq_cell hwf]
    simp [Terrain.cell, hg]

/-- Witness of C8 on the 2x2 demo terrain: the cell (1,1) and the
out-of-grid position (5,1). -/
theorem C8_HeightAt_total_witness :
    demo.WF ∧
    (∃ v, 0 ≤ 1 * demo.width + 1 ∧ demo.height_map[(1 * demo.width + 1).toNat]? = some v ∧
      demo.HeightAt 1 1 = .ok v) ∧
    demo.HeightAt 5 1 = .ok 0 :=
  ⟨by decide, (C8_HeightAt_total demo (by decide) 1 1).1 (by decide),
    (C8_HeightAt_total demo (by decide) 5 1).2 (by decide)⟩

/-- C9: on a terrain whose height map has `width*height` cells, `AdjustHeightAt`
outside the grid returns the terrain unchanged; inside the grid it succeeds,
keeps the dimensions, leaves in cell `(x,y)` the value
`min(max(old+delta, lo), hi)` and leaves every other slot of the height map as
it was. -/
theorem C9_AdjustHeightAt_clamps (t : Terrain) (hwf : t.WF) (x y : ℤ) (dh lo hi : ℚ) :
    (¬ (0 ≤ x ∧ x < t.width ∧ 0 ≤ y ∧ y < t.height) →
      t.AdjustHeightAt x y dh lo hi = .ok t) ∧
    (0 ≤ x ∧ x < t.width ∧ 0 ≤ y ∧ y < t.height →
      ∃ old t2, t.HeightAt x y = .ok old ∧ t.AdjustHeightAt x y dh lo hi = .ok t2 ∧
        t2.width = t.width ∧ t2.height = t.height ∧
        t2.height_map.length = t.height_map.length ∧
        t2.HeightAt x y = .ok (min (max (old + dh) lo) hi) ∧
        (∀ i : ℕ, (i : ℤ) ≠ y * t.width + x → t2.height_map[i]? = t.height_map[i]?) ∧
        (∀ x2 y2 : ℤ, ¬ (x2 = x ∧ y2 = y) → t2.HeightAt x2 y2 = t.HeightAt x2 y2)) := by
  constructor
  · intro hn
    have hg : ¬ t.inGrid x y := by
      rintro ⟨hx, hy, hxw, hyh⟩
      exact hn ⟨hx, by omega, hy, by omega⟩
    rw [AdjustHeightAt_eq_adjusted hwf]
    simp [Terrain.adjusted, hg]
  · rintro ⟨hx, hxw, hy, hyh⟩
    have hg : t.inGrid x y := ⟨hx, hy, by omega, by omega⟩
    have hb := index_bounds hwf hg
    have hwf2 := adjusted_WF hwf x y dh lo hi
    refine ⟨t.cell x y, t.adjusted x y dh lo hi, HeightAt_eq_cell hwf x y,
      AdjustHeightAt_eq_adjusted hwf x y dh lo hi, adjusted_width .., adjusted_height ..,
      adjusted_length .., ?_, ?_, ?_⟩
    · rw [HeightAt_eq_cell hwf2, adjusted_cell_same hwf hg]
    · intro i hi
      have hne : (y * t.width + x).toNat ≠ i := by
        intro he
        apply hi
        rw [← he, Int.toNat_of_nonneg hb.1]
      simp [Terrain.adjusted, hg, List.getElem?_set, hne]
    · intro x2 y2 hne
      rw [HeightAt_eq_cell hwf2, HeightAt_eq_cell hwf, adjusted_cell_other x y dh lo hi hne]
/-- Witness of C9 on the demo terrain: the cell (1,0) and the out-of-grid
position (2,0). -/
theorem C9_AdjustHeightAt_clamps_witness :
    demo.WF ∧
    (∃ old t2, demo.HeightAt 1 0 = .ok old ∧ demo.AdjustHeightAt 1 0 5 0 3 = .ok t2 ∧
        t2.width = demo.width ∧ t2.height = demo.height ∧
        t2.height_map.length = demo.height_map.length ∧
        t2.HeightAt 1 0 = .ok (min (max (old + 5) 0) 3) ∧
        (∀ i : ℕ, (i : ℤ) ≠ 0 * demo.width + 1 → t2.height_map[i]? = demo.height_map[i]?) ∧
        (∀ x2 y2 : ℤ, ¬ (x2 = 1 ∧ y2 = 0) → t2.HeightAt x2 y2 = demo.HeightAt x2 y2)) ∧
    demo.AdjustHeightAt 2 0 5 0 3 = .ok demo :=
  ⟨by decide, (C9_AdjustHeightAt_clamps demo (by decide) 1 0 5 0 3).2 (by decide),
    (C9_AdjustHeightAt_clamps demo (by decide) 2 0 5 0 3).1 (by decide)⟩

/-! ## Bilinear sampling -/

theorem HeightAtFractional_eq {t : Terrain} (hwf : t.WF) (x y : ℚ) :
    t.HeightAtFractional x y = .ok (t.bilinear x y) := by
  unfold Terrain.HeightAtFractional Terrain.bilinear
  simp only [trunc_Modf_fst, Modf_snd, HeightAt_eq_cell hwf, ok_bind, pure_eq_ok]

/-- At integer coordinates the bilinear blend is the corner read. -/
theorem bilinear_intCast (t : Terrain) (x y : ℤ) :
    t.bilinear (x : ℚ) (y : ℚ) = t.cell x y := by
  simp [Terrain.bilinear, trunc_intCast]

/-- C1: at integer coordinates `(x,y)`, in particular at every `(x,y)` with
`0 ≤ x < width` and `0 ≤ y < height`, `HeightAtFractional` returns exactly
`HeightAt(x,y)`. -/
theorem C1_HeightAtFractional_integer (t : Terrain) (hwf : t.WF) (x y : ℤ) :
    t.HeightAtFractional (x : ℚ) (y : ℚ) = t.HeightAt x y := by
  rw [HeightAtFractional_eq hwf, HeightAt_eq_cell hwf, bilinear_intCast]

/-- Witness of C1 on the demo terrain, at the in-grid cell (1,0). -/
theorem C1_HeightAtFractional_integer_witness :
    demo.WF ∧ (0 ≤ (1:ℤ) ∧ (1:ℤ) < demo.width) ∧ (0 ≤ (0:ℤ) ∧ (0:ℤ) < demo.height) ∧
      demo.HeightAtFractional ((1 : ℤ) : ℚ) ((0 : ℤ) : ℚ) = demo.HeightAt 1 0 :=
  ⟨by decide, by decide, by decide, C1_HeightAtFractional_integer demo (by decide) 1 0⟩

/-- C7 (amended): for every terrain and every position `(x,y)` each of whose
coordinates is non-negative or an integer, `HeightAtFractional(x,y)` is the
spec's bilinear formula on the `floor` decomposition: `x0 = floor(x)`,
`y0 = floor(y)`, `x1 = x0+1`, `y1 = y0+1`, `xt = x-x0`, `yt = y-y0`,
`top*(1-yt) + bottom*yt`. -/
theorem C7_floor_decomposition (t : Terrain) (x y : ℚ)
    (hx : 0 ≤ x ∨ ((⌊x⌋ : ℤ) : ℚ) = x) (hy : 0 ≤ y ∨ ((⌊y⌋ : ℤ) : ℚ) = y) :
    t.HeightAtFractional x y = sampleBilinearSpec t x y := by
  have ex : trunc x = ⌊x⌋ := hx.elim trunc_of_nonneg trunc_of_isInt
  have ey : trunc y = ⌊y⌋ := hy.elim trunc_of_nonneg trunc_of_isInt
  unfold Terrain.HeightAtFractional sampleBilinearSpec
  simp only [trunc_Modf_fst, Modf_snd, ex, ey]

/-- Witness of C7 on the demo terrain, at the position (1/2, 3/2). -/
theorem C7_floor_decomposition_witness :
    (0 ≤ (1/2 : ℚ) ∨ ((⌊(1/2 : ℚ)⌋ : ℤ) : ℚ) = 1/2) ∧
    (0 ≤ (3/2 : ℚ) ∨ ((⌊(3/2 : ℚ)⌋ : ℤ) : ℚ) = 3/2) ∧
    demo.HeightAtFractional (1/2) (3/2) = sampleBilinearSpec demo (1/2) (3/2) :=
  ⟨Or.inl (by norm_num), Or.inl (by norm_num),
    C7_floor_decomposition demo (1/2) (3/2) (Or.inl (by norm_num)) (Or.inl (by norm_num))⟩

/-- C7 (counterexample): on the 2x1 terrain `[4, 0]` at the position
`(-1/2, 0)` the code, whose `math.Modf` truncates toward zero (`x0 = 0`,
`xt = -1/2`), returns 6, while the `floor` decomposition of the claim
(`x0 = -1`, `xt = 1/2`) gives 2. -/
theorem C7_counterexample :
    (Terrain.mk 2 1 [4, 0]).HeightAtFractional (-1/2) 0 = .ok 6 ∧
    sampleBilinearSpec (Terrain.mk 2 1 [4, 0]) (-1/2) 0 = .ok 2 ∧
    (Terrain.mk 2 1 [4, 0]).HeightAtFractional (-1/2) 0 ≠
      sampleBilinearSpec (Terrain.mk 2 1 [4, 0]) (-1/2) 0 := by
  have h1 : (Terrain.mk 2 1 [4, 0]).HeightAtFractional (-1/2) 0 = .ok 6 := by
    rw [HeightAtFractional_eq (by decide)]
    norm_num [Terrain.bilinear, trunc, Terrain.cell, Terrain.inGrid]
  have h2 : sampleBilinearSpec (Terrain.mk 2 1 [4, 0]) (-1/2) 0 = .ok 2 := by
    norm_num [sampleBilinearSpec, Terrain.HeightAt, sliceGet]
  refine ⟨h1, h2, ?_⟩
  rw [h1, h2]
  intro h
  injection h with h
  norm_num at h

/-! ## The gradient proxy -/

theorem AccelerationAtFractional_eq {t : Terrain} (hwf : t.WF) (x y : ℚ) :
    t.AccelerationAtFractional x y = .ok
      ((t.cell (trunc x + 1) (trunc y) * (1 - (y - (trunc y : ℚ)))
          + t.cell (trunc x + 1) (trunc y + 1) * (y - (trunc y : ℚ)))
        - (t.cell (trunc x) (trunc y) * (1 - (y - (trunc y : ℚ)))
          + t.cell (trunc x) (trunc y + 1) * (y - (trunc y : ℚ))),
       (t.cell (trunc x) (trunc y + 1) * (1 - (x - (trunc x : ℚ)))
          + t.cell (trunc x + 1) (trunc y + 1) * (x - (trunc x : ℚ)))
        - (t.cell (trunc x) (trunc y) * (1 - (x - (trunc x : ℚ)))
          + t.cell (trunc x + 1) (trunc y) * (x - (trunc x : ℚ)))) := by
  unfold Terrain.AccelerationAtFractional
  simp only [trunc_Modf_fst, Modf_snd, HeightAt_eq_cell hwf, ok_bind, pure_eq_ok]

/-- On a flat field every in-grid read gives the common value. -/
theorem cell_flat {t : Terrain} (hwf : t.WF) {c : ℚ} (hflat : ∀ v ∈ t.height_map, v = c)
    (x y : ℤ) : t.cell x y = if t.inGrid x y then c else 0 := by
  unfold Terrain.cell
  split_ifs with h
  · have hb := index_bounds hwf h
    have hlt : (y * t.width + x).toNat < t.height_map.length := by
      have := hb.2
      omega
    rw [List.getD_eq_getElem?_getD, List.getElem?_eq_getElem hlt]
    exact hflat _ (List.getElem_mem _)
  · rfl

/-- C6 (amended): on a flat field of value `c`, at a position with
`0 ≤ x < width` and `0 ≤ y < height`, `AccelerationAtFractional` returns `(0,0)`
exactly when `c = 0` or the position is left of the last column and above the
last row (`x < width-1` and `y < height-1`), that is, when no corner of the
cell is read outside the grid as 0 against a non-zero `c`. -/
theorem C6_flat_gradient (t : Terrain) (hwf : t.WF) (c : ℚ)
    (hflat : ∀ v ∈ t.height_map, v = c) (x y : ℚ)
    (hx : 0 ≤ x ∧ x < (t.width : ℚ)) (hy : 0 ≤ y ∧ y < (t.height : ℚ)) :
    t.AccelerationAtFractional x y = .ok (0, 0) ↔
      (c = 0 ∨ (x < (t.width : ℚ) - 1 ∧ y < (t.height : ℚ) - 1)) := by
  rw [AccelerationAtFractional_eq hwf, trunc_of_nonneg hx.1, trunc_of_nonneg hy.1]
  have hx0 : 0 ≤ ⌊x⌋ := Int.floor_nonneg.2 hx.1
  have hy0 : 0 ≤ ⌊y⌋ := Int.floor_nonneg.2 hy.1
  have hxw : ⌊x⌋ ≤ t.width - 1 := by
    have : ⌊x⌋ < t.width := Int.floor_lt.2 hx.2
    omega
  have hyh : ⌊y⌋ ≤ t.height - 1 := by
    have : ⌊y⌋ < t.height := Int.floor_lt.2 hy.2
    omega
  have hxt0 : 0 ≤ x - (⌊x⌋ : ℚ) := by linarith [Int.floor_le x]
  have hxt1 : x - (⌊x⌋ : ℚ) < 1 := by linarith [Int.lt_floor_add_one x]
  have hyt0 : 0 ≤ y - (⌊y⌋ : ℚ) := by linarith [Int.floor_le y]
  have hyt1 : y - (⌊y⌋ : ℚ) < 1 := by linarith [Int.lt_floor_add_one y]
  have hxi : x < (t.width : ℚ) - 1 ↔ ⌊x⌋ + 1 ≤ t.width - 1 := by
    have h1 : x < ((t.width - 1 : ℤ) : ℚ) ↔ ⌊x⌋ < t.width - 1 := Int.floor_lt.symm
    rw [Int.cast_sub, Int.cast_one] at h1
    rw [h1]; omega
  have hyi : y < (t.height : ℚ) - 1 ↔ ⌊y⌋ + 1 ≤ t.height - 1 := by
    have h1 : y < ((t.height - 1 : ℤ) : ℚ) ↔ ⌊y⌋ < t.height - 1 := Int.floor_lt.symm
    rw [Int.cast_sub, Int.cast_one] at h1
    rw [h1]; omega
  have g00 : t.inGrid ⌊x⌋ ⌊y⌋ := ⟨hx0, hy0, hxw, hyh⟩
  have g10 : t.inGrid (⌊x⌋ + 1) ⌊y⌋ ↔ ⌊x⌋ + 1 ≤ t.width - 1 :=
    ⟨fun h => h.2.2.1, fun h => ⟨by omega, hy0, h, hyh⟩⟩
  have g01 : t.inGrid ⌊x⌋ (⌊y⌋ + 1) ↔ ⌊y⌋ + 1 ≤ t.height - 1 :=
    ⟨fun h => h.2.2.2, fun h => ⟨hx0, by omega, hxw, h⟩⟩
  have g11 : t.inGrid (⌊x⌋ + 1) (⌊y⌋ + 1) ↔
      (⌊x⌋ + 1 ≤ t.width - 1 ∧ ⌊y⌋ + 1 ≤ t.height - 1) :=
    ⟨fun h => ⟨h.2.2.1, h.2.2.2⟩, fun h => ⟨by omega, by omega, h.1, h.2⟩⟩
  simp only [cell_flat hwf hflat, if_pos g00, g10, g01, g11, hxi, hyi, Except.ok.injEq,
    Prod.mk.injEq]
  generalize x - (⌊x⌋ : ℚ) = xt at hxt0 hxt1
  generalize y - (⌊y⌋ : ℚ) = yt at hyt0 hyt1
  by_cases hc : c = 0
  · subst hc
    simp
  · have hyt : (1 : ℚ) - yt ≠ 0 := by intro h; linarith
    by_cases hX : ⌊x⌋ + 1 ≤ t.width - 1 <;> by_cases hY : ⌊y⌋ + 1 ≤ t.height - 1
    · simp only [hX, hY, and_self, if_true, hc, false_or, iff_true]
      constructor <;> ring
    · simp only [hX, hY, and_false, and_true, if_true, if_false, hc, false_or, iff_false]
      rintro ⟨-, h2⟩
      apply hc
      have : c * (1 - xt) + c * xt = c := by ring
      linarith
    · simp only [hX, hY, and_false, false_and, if_true, if_false, hc, false_or, iff_false]
      rintro ⟨h1, -⟩
      apply hc
      have : c * (1 - yt) + c * yt = c := by ring
      linarith
    · simp only [hX, hY, and_self, if_false, hc, false_or, iff_false]
      rintro ⟨h1, -⟩
      have : c * (1 - yt) = 0 := by linarith
      rcases mul_eq_zero.1 this with h | h
      · exact hc h
      · exact hyt h

/-- Witness of C6 on the flat 2x2 terrain of value 5, at the position
(1/2, 1/2), left of the last column and above the last row. -/
theorem C6_flat_gradient_witness :
    flatDemo.WF ∧ (∀ v ∈ flatDemo.height_map, v = 5) ∧
    (0 ≤ (1/2 : ℚ) ∧ (1/2 : ℚ) < (flatDemo.width : ℚ)) ∧
    (0 ≤ (1/2 : ℚ) ∧ (1/2 : ℚ) < (flatDemo.height : ℚ)) ∧
    flatDemo.AccelerationAtFractional (1/2) (1/2) = .ok (0, 0) :=
  ⟨by decide, by simp [flatDemo], by norm_num [flatDemo], by norm_num [flatDemo],
    (C6_flat_gradient flatDemo (by decide) 5 (by simp [flatDemo]) (1/2) (1/2)
      (by norm_num [flatDemo]) (by norm_num [flatDemo])).2
      (Or.inr ⟨by norm_num [flatDemo], by norm_num [flatDemo]⟩)⟩

/-- C6 (counterexample): on the flat 1x1 terrain of value 5, at the in-grid
position (0,0), the three corners outside the grid read 0 and the gradient
proxy is (-5,-5), not (0,0). -/
theorem C6_counterexample :
    (Terrain.mk 1 1 [5]).WF ∧ (∀ v ∈ (Terrain.mk 1 1 [5]).height_map, v = 5) ∧
    (Terrain.mk 1 1 [5]).AccelerationAtFractional 0 0 = .ok (-5, -5) ∧
    (Terrain.mk 1 1 [5]).AccelerationAtFractional 0 0 ≠ .ok (0, 0) := by
  have h1 : (Terrain.mk 1 1 [5]).AccelerationAtFractional 0 0 = .ok (-5, -5) := by
    rw [AccelerationAtFractional_eq (by decide)]
    norm_num [trunc, Terrain.cell, Terrain.inGrid]
  refine ⟨by decide, by simp, h1, ?_⟩
  rw [h1]
  intro h
  injection h with h
  norm_num at h

/-! ## Weighted deposit -/

theorem AdjustTerrainAt_eq {t : Terrain} (hwf : t.WF) (x y dh : ℚ) :
    t.AdjustTerrainAt x y dh = .ok (t.deposited x y dh) := by
  unfold Terrain.AdjustTerrainAt Terrain.deposited Terrain.cornerMin Terrain.cornerMax
  simp only [trunc_Modf_fst, Modf_snd, HeightAt_eq_cell hwf, ok_bind]
  rw [AdjustHeightAt_eq_adjusted hwf, ok_bind,
    AdjustHeightAt_eq_adjusted (adjusted_WF hwf ..), ok_bind,
    AdjustHeightAt_eq_adjusted (adjusted_WF (adjusted_WF hwf ..) ..), ok_bind,
    AdjustHeightAt_eq_adjusted (adjusted_WF (adjusted_WF (adjusted_WF hwf ..) ..) ..)]

theorem deposited_WF {t : Terrain} (hwf : t.WF) (x y dh : ℚ) : (t.deposited x y dh).WF :=
  adjusted_WF (adjusted_WF (adjusted_WF (adjusted_WF hwf ..) ..) ..) ..

theorem cornerMin_le (t : Terrain) (x0 y0 : ℤ) :
    t.cornerMin x0 y0 ≤ t.cell x0 y0 ∧ t.cornerMin x0 y0 ≤ t.cell (x0 + 1) y0 ∧
    t.cornerMin x0 y0 ≤ t.cell x0 (y0 + 1) ∧ t.cornerMin x0 y0 ≤ t.cell (x0 + 1) (y0 + 1) := by
  unfold Terrain.cornerMin
  simp

theorem le_cornerMax (t : Terrain) (x0 y0 : ℤ) :
    t.cell x0 y0 ≤ t.cornerMax x0 y0 ∧ t.cell (x0 + 1) y0 ≤ t.cornerMax x0 y0 ∧
    t.cell x0 (y0 + 1) ≤ t.cornerMax x0 y0 ∧ t.cell (x0 + 1) (y0 + 1) ≤ t.cornerMax x0 y0 := by
  unfold Terrain.cornerMax
  simp

theorem cornerMin_le_cornerMax (t : Terrain) (x0 y0 : ℤ) :
    t.cornerMin x0 y0 ≤ t.cornerMax x0 y0 :=
  le_trans (cornerMin_le t x0 y0).1 (le_cornerMax t x0 y0).1

/-- A deposit keeps the terrain well formed. -/
theorem AdjustTerrainAt_WF {t t2 : Terrain} (hwf : t.WF) {x y dh : ℚ}
    (h : t.AdjustTerrainAt x y dh = .ok t2) : t2.WF := by
  rw [AdjustTerrainAt_eq hwf] at h
  cases h
  exact deposited_WF hwf x y dh

/-- The adjusted cell stays between the clamping bounds when it was there. -/
theorem adjusted_cell_mem {t : Terrain} (hwf : t.WF) (x y : ℤ) (dh : ℚ) {lo hi : ℚ}
    (hlh : lo ≤ hi) (hin : lo ≤ t.cell x y ∧ t.cell x y ≤ hi) :
    lo ≤ (t.adjusted x y dh lo hi).cell x y ∧ (t.adjusted x y dh lo hi).cell x y ≤ hi := by
  by_cases h : t.inGrid x y
  · rw [adjusted_cell_same hwf h]
    exact ⟨le_min (le_max_right _ _) hlh, min_le_right _ _⟩
  · have : t.adjusted x y dh lo hi = t := by simp [Terrain.adjusted, h]
    rw [this]; exact hin

/-- C4: `AdjustTerrainAt(x,y,0)` succeeds and returns the terrain with every
cell of the height map unchanged. -/
theorem C4_AdjustTerrainAt_zero (t : Terrain) (hwf : t.WF) (x y : ℚ) :
    t.AdjustTerrainAt x y 0 = .ok t := by
  rw [AdjustTerrainAt_eq hwf]
  unfold Terrain.deposited
  simp only [zero_mul]
  have key : ∀ (cx cy : ℤ) (lo hi : ℚ), (lo ≤ t.cell cx cy ∧ t.cell cx cy ≤ hi) →
      t.adjusted cx cy 0 lo hi = t := by
    intro cx cy lo hi hb
    apply adjusted_eq_self hwf
    intro _
    rw [add_zero, max_eq_left hb.1, min_eq_left hb.2]
  have hlo := cornerMin_le t (trunc x) (trunc y)
  have hhi := le_cornerMax t (trunc x) (trunc y)
  rw [key _ _ _ _ ⟨hlo.1, hhi.1⟩, key _ _ _ _ ⟨hlo.2.1, hhi.2.1⟩,
    key _ _ _ _ ⟨hlo.2.2.1, hhi.2.2.1⟩, key _ _ _ _ ⟨hlo.2.2.2, hhi.2.2.2⟩]

/-- Witness of C4 on the demo terrain, at the position (1/2, 3/2). -/
theorem C4_AdjustTerrainAt_zero_witness :
    demo.WF ∧ demo.AdjustTerrainAt (1/2) (3/2) 0 = .ok demo :=
  ⟨by decide, C4_AdjustTerrainAt_zero demo (by decide) (1/2) (3/2)⟩

/-- C3: after `AdjustTerrainAt(x,y,delta)` each of the four corners
`(x0,y0), (x1,y0), (x0,y1), (x1,y1)` of the decomposition reads, with
`HeightAt`, a height within `[hMin, hMax]`, the minimum and maximum of the
four corner heights read with `HeightAt` before the call; for a corner inside
the grid that is the height the cell holds. -/
theorem C3_AdjustTerrainAt_local_extrema (t : Terrain) (hwf : t.WF) (x y dh : ℚ) :
    ∃ h00 h10 h01 h11 t2,
      t.HeightAt (trunc x) (trunc y) = .ok h00 ∧
      t.HeightAt (trunc x + 1) (trunc y) = .ok h10 ∧
      t.HeightAt (trunc x) (trunc y + 1) = .ok h01 ∧
      t.HeightAt (trunc x + 1) (trunc y + 1) = .ok h11 ∧
      t.AdjustTerrainAt x y dh = .ok t2 ∧
      ∀ cx cy : ℤ, (cx = trunc x ∨ cx = trunc x + 1) → (cy = trunc y ∨ cy = trunc y + 1) →
        ∃ v, t2.HeightAt cx cy = .ok v ∧
          min (min (min h00 h10) h01) h11 ≤ v ∧ v ≤ max (max (max h00 h10) h01) h11 := by
  refine ⟨_, _, _, _, _, HeightAt_eq_cell hwf _ _, HeightAt_eq_cell hwf _ _,
    HeightAt_eq_cell hwf _ _, HeightAt_eq_cell hwf _ _, AdjustTerrainAt_eq hwf x y dh, ?_⟩
  intro cx cy hcx hcy
  refine ⟨_, HeightAt_eq_cell (deposited_WF hwf x y dh) cx cy, ?_⟩
  have hlo := cornerMin_le t (trunc x) (trunc y)
  have hhi := le_cornerMax t (trunc x) (trunc y)
  have hlh := cornerMin_le_cornerMax t (trunc x) (trunc y)
  have w1 := adjusted_WF hwf (trunc x) (trunc y)
    (dh * (1 - (x - (trunc x : ℚ))) * (1 - (y - (trunc y : ℚ))))
    (t.cornerMin (trunc x) (trunc y)) (t.cornerMax (trunc x) (trunc y))
  have w2 := adjusted_WF w1 (trunc x + 1) (trunc y)
    (dh * (x - (trunc x : ℚ)) * (1 - (y - (trunc y : ℚ))))
    (t.cornerMin (trunc x) (trunc y)) (t.cornerMax (trunc x) (trunc y))
  have w3 := adjusted_WF w2 (trunc x) (trunc y + 1)
    (dh * (1 - (x - (trunc x : ℚ))) * (y - (trunc y : ℚ)))
    (t.cornerMin (trunc x) (trunc y)) (t.cornerMax (trunc x) (trunc y))
  change t.cornerMin (trunc x) (trunc y) ≤ (t.deposited x y dh).cell cx cy ∧
    (t.deposited x y dh).cell cx cy ≤ t.cornerMax (trunc x) (trunc y)
  unfold Terrain.deposited
  rcases hcx with rfl | rfl <;> rcases hcy with rfl | rfl
  · rw [adjusted_cell_other _ _ _ _ _ (by omega), adjusted_cell_other _ _ _ _ _ (by omega),
      adjusted_cell_other _ _ _ _ _ (by omega)]
    exact adjusted_cell_mem hwf _ _ _ hlh ⟨hlo.1, hhi.1⟩
  · rw [adjusted_cell_other _ _ _ _ _ (by omega)]
    apply adjusted_cell_mem w2 _ _ _ hlh
    rw [adjusted_cell_other _ _ _ _ _ (by omega), adjusted_cell_other _ _ _ _ _ (by omega)]
    exact ⟨hlo.2.2.1, hhi.2.2.1⟩
  · rw [adjusted_cell_other _ _ _ _ _ (by omega), adjusted_cell_other _ _ _ _ _ (by omega)]
    apply adjusted_cell_mem w1 _ _ _ hlh
    rw [adjusted_cell_other _ _ _ _ _ (by omega)]
    exact ⟨hlo.2.1, hhi.2.1⟩
  · apply adjusted_cell_mem w3 _ _ _ hlh
    rw [adjusted_cell_other _ _ _ _ _ (by omega), adjusted_cell_other _ _ _ _ _ (by omega),
      adjusted_cell_other _ _ _ _ _ (by omega)]
    exact ⟨hlo.2.2.2, hhi.2.2.2⟩

/-- Witness of C3 on the demo terrain: a deposit of -4 at (1/2, 1/2). -/
theorem C3_AdjustTerrainAt_local_extrema_witness :
    demo.WF ∧
    ∃ h00 h10 h01 h11 t2,
      demo.HeightAt (trunc (1/2)) (trunc (1/2)) = .ok h00 ∧
      demo.HeightAt (trunc (1/2) + 1) (trunc (1/2)) = .ok h10 ∧
      demo.HeightAt (trunc (1/2)) (trunc (1/2) + 1) = .ok h01 ∧
      demo.HeightAt (trunc (1/2) + 1) (trunc (1/2) + 1) = .ok h11 ∧
      demo.AdjustTerrainAt (1/2) (1/2) (-4) = .ok t2 ∧
      ∀ cx cy : ℤ, (cx = trunc (1/2) ∨ cx = trunc (1/2) + 1) →
        (cy = trunc (1/2) ∨ cy = trunc (1/2) + 1) →
        ∃ v, t2.HeightAt cx cy = .ok v ∧
          min (min (min h00 h10) h01) h11 ≤ v ∧ v ≤ max (max (max h00 h10) h01) h11 :=
  ⟨by decide, C3_AdjustTerrainAt_local_extrema demo (by decide) (1/2) (1/2) (-4)⟩

/-! ## Erosion with no drops -/

theorem copySlice_same_length (dst src : List ℚ) (h : dst.length = src.length) :
    copySlice dst src = src := by
  unfold copySlice
  rw [h, min_self, List.take_length, ← h, List.drop_length, List.append_nil]

/-- On a well-formed terrain `Copy` succeeds and yields an equal terrain. -/
theorem Copy_eq {t : Terrain} (hwf : t.WF) : t.Copy = .ok t := by
  unfold Terrain.Copy MakeTerrain makeSlice
  have hn : ¬ (t.width * t.height < 0) := by
    rw [← hwf]; omega
  have hl : (t.width * t.height).toNat = t.height_map.length := by
    rw [← hwf]; simp
  simp only [hn, if_false, ok_bind, pure_eq_ok]
  rw [copySlice_same_length _ _ (by simp [hl])]

/-- C10: `RunErosionSimulation(0)` succeeds and leaves the terrain's width,
height and every cell of its height map identical to the input. -/
theorem C10_RunErosionSimulation_zero (sqrt : ℚ → ℚ) (rnd : ℕ → ℚ) (t : Terrain)
    (hwf : t.WF) : t.RunErosionSimulation sqrt rnd 0 = .ok t := by
  unfold Terrain.RunErosionSimulation
  rw [Copy_eq hwf]
  rfl

/-- Witness of C10 on the demo terrain. -/
theorem C10_RunErosionSimulation_zero_witness :
    demo.WF ∧ demo.RunErosionSimulation (fun v => v) (fun _ => 1/2) 0 = .ok demo :=
  ⟨by decide, C10_RunErosionSimulation_zero (fun v => v) (fun _ => 1/2) demo (by decide)⟩

/-! ## Upscaling -/

/-- C2 (failing input): scaling the 1x1 terrain holding 5 by the factor 1
divides 0 by 0 for both scales, so the destination cell is not a number; the
corner height 5 of the source is not preserved. -/
theorem C2_ScaleUp_unit_grid_not_a_number :
    (Terrain.mk 1 1 [5]).WF ∧ (Terrain.mk 1 1 [5]).HeightAt 0 0 = .ok 5 ∧
    (Terrain.mk 1 1 [5]).ScaleUp 1 = .error .notANumber := by
  refine ⟨by decide, ?_, ?_⟩
  · simp [Terrain.HeightAt, sliceGet]
  · simp [Terrain.ScaleUp, MakeTerrain, makeSlice, forLoop, scaleCell, fdiv]

theorem sliceSet_natCast {hm : List ℚ} {i : ℕ} (h : i < hm.length) (v : ℚ) :
    sliceSet hm (i : ℤ) v = .ok (hm.set i v) := by
  unfold sliceSet
  have : (0 : ℤ) ≤ (i : ℤ) ∧ (i : ℤ) < (hm.length : ℤ) := ⟨by omega, by omega⟩
  simp [this]

/-- A counted loop whose pass `x` stores `g x` at the running index and
advances it: after `k` passes from index `i` the slots `i .. i+k-1` hold
`g 0 .. g (k-1)` and every other slot is untouched. -/
theorem forLoop_fill (body : ℕ → ℤ × List ℚ → Except Fault (ℤ × List ℚ)) (g : ℕ → ℚ)
    (hbody : ∀ (x : ℕ) (i : ℤ) (hm : List ℚ),
      body x (i, hm) = (sliceSet hm i (g x) >>= fun hm2 => .ok (i + 1, hm2)))
    (k i : ℕ) (hm : List ℚ) (hlen : i + k ≤ hm.length) :
    ∃ hm2, forLoop body k ((i : ℤ), hm) = .ok (((i + k : ℕ) : ℤ), hm2) ∧
      hm2.length = hm.length ∧
      (∀ j, j < k → hm2[i + j]? = some (g j)) ∧
      (∀ m, (m < i ∨ i + k ≤ m) → hm2[m]? = hm[m]?) := by
  induction k with
  | zero =>
    exact ⟨hm, rfl, rfl, fun j hj => absurd hj (Nat.not_lt_zero j), fun _ _ => rfl⟩
  | succ k ih =>
    obtain ⟨hm1, hrun, hl1, hfill, hframe⟩ := ih (by omega)
    have hlt : i + k < hm1.length := by omega
    refine ⟨hm1.set (i + k) (g k), ?_, ?_, ?_, ?_⟩
    · show (forLoop body k ((i : ℤ), hm) >>= body k) = _
      rw [hrun, ok_bind, hbody, sliceSet_natCast hlt, ok_bind]
      simp only [Nat.cast_add, Nat.cast_one, add_assoc]
    · simp [hl1]
    · intro j hj
      by_cases hjk : j = k
      · subst hjk
        simp [List.getElem?_set, hlt]
      · have : i + k ≠ i + j := by omega
        rw [List.getElem?_set_ne this]
        exact hfill j (by omega)
    · intro m hm'
      have : i + k ≠ m := by omega
      rw [List.getElem?_set_ne this]
      exact hframe m (by omega)

/-- Two nested counted loops over `rows` rows of `cols` columns that store
`g y x` at the running index: afterwards slot `y*cols + x` holds `g y x`. -/
theorem forLoop_fill_grid (body : ℕ → ℕ → ℤ × List ℚ → Except Fault (ℤ × List ℚ))
    (g : ℕ → ℕ → ℚ)
    (hbody : ∀ (y x : ℕ) (i : ℤ) (hm : List ℚ),
      body y x (i, hm) = (sliceSet hm i (g y x) >>= fun hm2 => .ok (i + 1, hm2)))
    (cols r : ℕ) (hm : List ℚ) (hlen : r * cols ≤ hm.length) :
    ∃ hm2, forLoop (fun y s => forLoop (body y) cols s) r ((0 : ℤ), hm)
        = .ok (((r * cols : ℕ) : ℤ), hm2) ∧
      hm2.length = hm.length ∧
      (∀ y x, y < r → x < cols → hm2[y * cols + x]? = some (g y x)) := by
  induction r with
  | zero =>
    refine ⟨hm, ?_, rfl, fun y x hy _ => absurd hy (Nat.not_lt_zero y)⟩
    simp [forLoop]
  | succ r ih =>
    have hmul : (r + 1) * cols = r * cols + cols := Nat.succ_mul r cols
    obtain ⟨hm1, hrun, hl1, hfill⟩ := ih (by omega)
    obtain ⟨hm2, hrow, hl2, hnew, hframe⟩ :=
      forLoop_fill (body r) (g r) (hbody r) cols (r * cols) hm1 (by omega)
    refine ⟨hm2, ?_, by omega, ?_⟩
    · show (forLoop (fun y s => forLoop (body y) cols s) r ((0 : ℤ), hm) >>=
        fun s => forLoop (body r) cols s) = _
      rw [hrun, ok_bind, hrow, hmul]
    · intro y x hy hx
      by_cases hyr : y = r
      · subst hyr
        exact hnew x hx
      · have hylt : y < r := by omega
        have hle : (y + 1) * cols ≤ r * cols := Nat.mul_le_mul_right cols (by omega)
        have : y * cols + x < r * cols := by
          rw [Nat.succ_mul] at hle
          omega
        rw [hframe _ (Or.inl this)]
        exact hfill y x hylt hx

/-- What `ScaleUp` computes when neither destination dimension is 1: it
succeeds, the result has dimensions `(width*scale, height*scale)` and its cell
`(x,y)` is the source sampled at `(x*scale_x, y*scale_y)`. -/
theorem ScaleUp_cells {t : Terrain} (hwf : t.WF) {scale : ℤ} (hw : 1 ≤ t.width)
    (hh : 1 ≤ t.height) (hs : 1 ≤ scale) (hW : t.width * scale ≠ 1)
    (hH : t.height * scale ≠ 1) :
    ∃ t2, t.ScaleUp scale = .ok t2 ∧ t2.width = t.width * scale ∧
      t2.height = t.height * scale ∧ t2.WF ∧
      ∀ x y : ℤ, 0 ≤ x → x < t.width * scale → 0 ≤ y → y < t.height * scale →
        t2.HeightAt x y = t.HeightAtFractional
          ((x : ℚ) * (((t.width - 1 : ℤ) : ℚ) / ((t.width * scale - 1 : ℤ) : ℚ)))
          ((y : ℚ) * (((t.height - 1 : ℤ) : ℚ) / ((t.height * scale - 1 : ℤ) : ℚ))) := by
  have hW0 : 0 ≤ t.width * scale := mul_nonneg (by omega) (by omega)
  have hH0 : 0 ≤ t.height * scale := mul_nonneg (by omega) (by omega)
  obtain ⟨W, hWn⟩ := Int.eq_ofNat_of_zero_le hW0
  obtain ⟨H, hHn⟩ := Int.eq_ofNat_of_zero_le hH0
  have hdx : ((t.width * scale - 1 : ℤ) : ℚ) ≠ 0 := by
    intro h
    have : t.width * scale - 1 = 0 := by exact_mod_cast h
    omega
  have hdy : ((t.height * scale - 1 : ℤ) : ℚ) ≠ 0 := by
    intro h
    have : t.height * scale - 1 = 0 := by exact_mod_cast h
    omega
  have hneg : ¬ (t.width * scale * (t.height * scale) < 0) := by
    have := mul_nonneg hW0 hH0
    omega
  have hlen : (t.width * scale * (t.height * scale)).toNat = H * W := by
    rw [hWn, hHn, ← Int.natCast_mul, Int.toNat_natCast, Nat.mul_comm]
  obtain ⟨hm2, hrun, hl2, hfill⟩ := forLoop_fill_grid
    (fun y x s => scaleCell t
      (.ok (((t.width - 1 : ℤ) : ℚ) / ((t.width * scale - 1 : ℤ) : ℚ)))
      (.ok (((t.height - 1 : ℤ) : ℚ) / ((t.height * scale - 1 : ℤ) : ℚ))) y x s)
    (fun y x => t.bilinear
      ((x : ℚ) * (((t.width - 1 : ℤ) : ℚ) / ((t.width * scale - 1 : ℤ) : ℚ)))
      ((y : ℚ) * (((t.height - 1 : ℤ) : ℚ) / ((t.height * scale - 1 : ℤ) : ℚ))))
    (by
      intro y x i hm
      unfold scaleCell
      simp only [ok_bind, HeightAtFractional_eq hwf, pure_eq_ok])
    W H (List.replicate (H * W) 0) (by simp)
  have hwf2 : (Terrain.mk (t.width * scale) (t.height * scale) hm2).WF := by
    unfold Terrain.WF
    simp only [hl2, List.length_replicate, hWn, hHn]
    push_cast
    ring
  refine ⟨Terrain.mk (t.width * scale) (t.height * scale) hm2, ?_, rfl, rfl, hwf2, ?_⟩
  · unfold Terrain.ScaleUp MakeTerrain makeSlice fdiv
    simp only [hneg, if_false, ok_bind, pure_eq_ok, hdx, hdy, hlen]
    simp only [hWn, hHn, Int.toNat_natCast]
    simp only [← hWn, ← hHn]
    rw [hrun]
    rfl
  · intro x y hx0 hxW hy0 hyH
    obtain ⟨xn, rfl⟩ := Int.eq_ofNat_of_zero_le hx0
    obtain ⟨yn, rfl⟩ := Int.eq_ofNat_of_zero_le hy0
    have hxn : xn < W := by omega
    have hyn : yn < H := by omega
    have hg : (Terrain.mk (t.width * scale) (t.height * scale) hm2).inGrid (xn : ℤ) (yn : ℤ) :=
      ⟨hx0, hy0, by simp only; omega, by simp only; omega⟩
    rw [HeightAt_eq_cell hwf2, HeightAtFractional_eq hwf]
    have hidx : ((yn : ℤ) * (t.width * scale) + (xn : ℤ)).toNat = yn * W + xn := by
      rw [hWn, ← Int.natCast_mul, ← Int.natCast_add, Int.toNat_natCast]
    unfold Terrain.cell
    rw [if_pos hg]
    simp only [hidx, List.getD_eq_getElem?_getD, hfill yn xn hyn hxn, Option.getD_some,
      Int.cast_natCast]

/-- Where the scales are defined, `ScaleUp` carries the four outer corners of
the source to the four outer corners of the result. -/
theorem ScaleUp_corners {t : Terrain} (hwf : t.WF) {scale : ℤ} (hw : 1 ≤ t.width)
    (hh : 1 ≤ t.height) (hs : 1 ≤ scale) (hW : t.width * scale ≠ 1)
    (hH : t.height * scale ≠ 1) :
    ∃ t2, t.ScaleUp scale = .ok t2 ∧
      t2.HeightAt 0 0 = t.HeightAt 0 0 ∧
      t2.HeightAt (t.width * scale - 1) 0 = t.HeightAt (t.width - 1) 0 ∧
      t2.HeightAt 0 (t.height * scale - 1) = t.HeightAt 0 (t.height - 1) ∧
      t2.HeightAt (t.width * scale - 1) (t.height * scale - 1)
        = t.HeightAt (t.width - 1) (t.height - 1) := by
  obtain ⟨t2, hrun, -, -, -, hcell⟩ := ScaleUp_cells hwf hw hh hs hW hH
  have hW1 : 1 ≤ t.width * scale := by nlinarith
  have hH1 : 1 ≤ t.height * scale := by nlinarith
  have hdx : ((t.width * scale - 1 : ℤ) : ℚ) ≠ 0 := by
    intro h
    have : t.width * scale - 1 = 0 := by exact_mod_cast h
    omega
  have hdy : ((t.height * scale - 1 : ℤ) : ℚ) ≠ 0 := by
    intro h
    have : t.height * scale - 1 = 0 := by exact_mod_cast h
    omega
  have ex0 : ((0 : ℤ) : ℚ) * (((t.width - 1 : ℤ) : ℚ) / ((t.width * scale - 1 : ℤ) : ℚ))
      = ((0 : ℤ) : ℚ) := by simp
  have ey0 : ((0 : ℤ) : ℚ) * (((t.height - 1 : ℤ) : ℚ) / ((t.height * scale - 1 : ℤ) : ℚ))
      = ((0 : ℤ) : ℚ) := by simp
  have ex1 : ((t.width * scale - 1 : ℤ) : ℚ)
      * (((t.width - 1 : ℤ) : ℚ) / ((t.width * scale - 1 : ℤ) : ℚ))
      = ((t.width - 1 : ℤ) : ℚ) := mul_div_cancel₀ _ hdx
  have ey1 : ((t.height * scale - 1 : ℤ) : ℚ)
      * (((t.height - 1 : ℤ) : ℚ) / ((t.height * scale - 1 : ℤ) : ℚ))
      = ((t.height - 1 : ℤ) : ℚ) := mul_div_cancel₀ _ hdy
  refine ⟨t2, hrun, ?_, ?_, ?_, ?_⟩
  · rw [hcell 0 0 le_rfl (by omega) le_rfl (by omega), ex0, ey0,
      HeightAtFractional_eq hwf, bilinear_intCast, HeightAt_eq_cell hwf]
  · rw [hcell _ 0 (by omega) (by omega) le_rfl (by omega), ex1, ey0,
      HeightAtFractional_eq hwf, bilinear_intCast, HeightAt_eq_cell hwf]
  · rw [hcell 0 _ le_rfl (by omega) (by omega) (by omega), ex0, ey1,
      HeightAtFractional_eq hwf, bilinear_intCast, HeightAt_eq_cell hwf]
  · rw [hcell _ _ (by omega) (by omega) (by omega) (by omega), ex1, ey1,
      HeightAtFractional_eq hwf, bilinear_intCast, HeightAt_eq_cell hwf]

/-! ## Invariants of the erosion loops -/

/-- A counted loop whose passes all succeed and keep `J` ends successfully
in a state satisfying `J`. -/
theorem forLoop_inv {σ : Type} (body : ℕ → σ → Except Fault σ) (J : σ → Prop)
    (hbody : ∀ k s, J s → ∃ s2, body k s = .ok s2 ∧ J s2) (n : ℕ) (s : σ) (hs : J s) :
    ∃ s2, forLoop body n s = .ok s2 ∧ J s2 := by
  induction n with
  | zero => exact ⟨s, rfl, hs⟩
  | succ k ih =>
    obtain ⟨s1, hrun, h1⟩ := ih
    obtain ⟨s2, hstep, h2⟩ := hbody k s1 h1
    refine ⟨s2, ?_, h2⟩
    show (forLoop body k s >>= body k) = _
    rw [hrun, ok_bind, hstep]

/-- The step loop of a drop always ends, after at most `fuel` passes, and
keeps every property of the working copy that a deposit keeps. -/
theorem dropLoop_inv (sqrt : ℚ → ℚ) {t : Terrain} (hwf : t.WF) (J : Terrain → Prop)
    (hJwf : ∀ tc, J tc → tc.WF)
    (hJ : ∀ tc x y dh, J tc → J (tc.deposited x y dh)) :
    ∀ (fuel : ℕ) (sim_i : ℤ) (drop : RainDrop) (tc : Terrain), J tc →
      ∃ r, dropLoop sqrt t fuel sim_i drop tc = .ok r ∧ J r.2.1 ∧ r.2.2 ≤ fuel := by
  intro fuel
  induction fuel with
  | zero =>
    intro sim_i drop tc h
    exact ⟨(drop, tc, 0), rfl, h, le_rfl⟩
  | succ n ih =>
    intro sim_i drop tc h
    unfold dropLoop
    split_ifs with hout
    · exact ⟨(drop, tc, 0), rfl, h, Nat.zero_le _⟩
    · rw [AccelerationAtFractional_eq hwf]
      simp only [ok_bind]
      rw [AdjustTerrainAt_eq (hJwf tc h)]
      simp only [ok_bind]
      split_ifs with hstall
      · exact ⟨_, rfl, hJ _ _ _ _ h, Nat.succ_le_succ (Nat.zero_le n)⟩
      · obtain ⟨r, hr, hJr, hle⟩ := ih (sim_i + 1) _ _ (hJ tc _ _ _ h)
        rw [hr]
        exact ⟨_, rfl, hJr, Nat.succ_le_succ hle⟩

theorem deposited_width (t : Terrain) (x y dh : ℚ) : (t.deposited x y dh).width = t.width := by
  unfold Terrain.deposited
  rw [adjusted_width, adjusted_width, adjusted_width, adjusted_width]

theorem deposited_height (t : Terrain) (x y dh : ℚ) :
    (t.deposited x y dh).height = t.height := by
  unfold Terrain.deposited
  rw [adjusted_height, adjusted_height, adjusted_height, adjusted_height]

theorem deposited_length (t : Terrain) (x y dh : ℚ) :
    (t.deposited x y dh).height_map.length = t.height_map.length := by
  unfold Terrain.deposited
  rw [adjusted_length, adjusted_length, adjusted_length, adjusted_length]

/-- A read of a bounded terrain is within the bounds once they enclose 0. -/
theorem cell_mem_bounds {t : Terrain} {lo hi : ℚ} (hb : t.bounded lo hi) (hlo : lo ≤ 0)
    (hhi : 0 ≤ hi) (x y : ℤ) : lo ≤ t.cell x y ∧ t.cell x y ≤ hi := by
  unfold Terrain.cell
  split_ifs with h
  · rw [List.getD_eq_getElem?_getD]
    cases hq : t.height_map[(y * t.width + x).toNat]? with
    | none => exact ⟨hlo, hhi⟩
    | some v => exact hb v (List.getElem?_mem hq)
  · exact ⟨hlo, hhi⟩

theorem adjusted_bounded {t : Terrain} {lo hi : ℚ} (hb : t.bounded lo hi) (x y : ℤ)
    (dh : ℚ) {lo2 hi2 : ℚ} (h1 : lo ≤ lo2) (h2 : lo2 ≤ hi2) (h3 : hi2 ≤ hi) :
    (t.adjusted x y dh lo2 hi2).bounded lo hi := by
  unfold Terrain.adjusted
  split_ifs with h
  · intro v hv
    rcases List.mem_or_eq_of_mem_set hv with hmem | heq
    · exact hb v hmem
    · rw [heq]
      exact ⟨le_trans h1 (le_min (le_max_right _ _) h2), le_trans (min_le_right _ _) h3⟩
  · exact hb

theorem cornerMin_ge {t : Terrain} {lo hi : ℚ} (hb : t.bounded lo hi) (hlo : lo ≤ 0)
    (hhi : 0 ≤ hi) (x0 y0 : ℤ) : lo ≤ t.cornerMin x0 y0 := by
  unfold Terrain.cornerMin
  exact le_min (le_min (le_min (cell_mem_bounds hb hlo hhi _ _).1
    (cell_mem_bounds hb hlo hhi _ _).1) (cell_mem_bounds hb hlo hhi _ _).1)
    (cell_mem_bounds hb hlo hhi _ _).1

theorem cornerMax_le {t : Terrain} {lo hi : ℚ} (hb : t.bounded lo hi) (hlo : lo ≤ 0)
    (hhi : 0 ≤ hi) (x0 y0 : ℤ) : t.cornerMax x0 y0 ≤ hi := by
  unfold Terrain.cornerMax
  exact max_le (max_le (max_le (cell_mem_bounds hb hlo hhi _ _).2
    (cell_mem_bounds hb hlo hhi _ _).2) (cell_mem_bounds hb hlo hhi _ _).2)
    (cell_mem_bounds hb hlo hhi _ _).2

/-- A deposit keeps every height within bounds that enclose 0. -/
theorem deposited_bounded {t : Terrain} {lo hi : ℚ} (hb : t.bounded lo hi) (hlo : lo ≤ 0)
    (hhi : 0 ≤ hi) (x y dh : ℚ) : (t.deposited x y dh).bounded lo hi := by
  have h1 := cornerMin_ge hb hlo hhi (trunc x) (trunc y)
  have h2 := cornerMin_le_cornerMax t (trunc x) (trunc y)
  have h3 := cornerMax_le hb hlo hhi (trunc x) (trunc y)
  unfold Terrain.deposited
  exact adjusted_bounded (adjusted_bounded (adjusted_bounded (adjusted_bounded hb _ _ _ h1 h2 h3)
    _ _ _ h1 h2 h3) _ _ _ h1 h2 h3) _ _ _ h1 h2 h3

/-- One drop of the simulation always ends and keeps: both terrains well
formed, the dimensions and length of the visible terrain, equal lengths of
the two height maps, and any property `Q` of the height maps that a deposit
keeps.  Afterwards the visible height map equals the working copy. -/
theorem simulateDrop_inv (sqrt : ℚ → ℚ) (rnd : ℕ → ℚ) (Q : List ℚ → Prop)
    (hQ : ∀ (tc : Terrain) (x y dh : ℚ), tc.WF → Q tc.height_map →
      Q (tc.deposited x y dh).height_map)
    (i : ℕ) (s : Terrain × Terrain) (h1 : s.1.WF) (h2 : s.2.WF)
    (hlen : s.2.height_map.length = s.1.height_map.length) (hq : Q s.2.height_map) :
    ∃ s2, simulateDrop sqrt rnd i s = .ok s2 ∧ s2.1.WF ∧ s2.2.WF ∧
      s2.2.height_map.length = s2.1.height_map.length ∧ Q s2.2.height_map ∧
      s2.1.width = s.1.width ∧ s2.1.height = s.1.height ∧
      s2.1.height_map.length = s.1.height_map.length ∧
      s2.1.height_map = s2.2.height_map := by
  obtain ⟨r, hr, ⟨hrwf, hrlen, hrq⟩, -⟩ := dropLoop_inv sqrt h1
    (fun tc => tc.WF ∧ tc.height_map.length = s.1.height_map.length ∧ Q tc.height_map)
    (fun tc h => h.1)
    (fun tc x y dh h => ⟨deposited_WF h.1 x y dh, by rw [deposited_length]; exact h.2.1,
      hQ tc x y dh h.1 h.2.2⟩)
    2000 0
    { x := rnd (2 * i) * (s.1.width : ℚ), y := rnd (2 * i + 1) * (s.1.height : ℚ),
      vx := 0, vy := 0, dirt := 0 }
    s.2 ⟨h2, hlen, hq⟩
  have hcopy : copySlice s.1.height_map (r.2.1.deposited r.1.x r.1.y (r.1.dirt * 0.1)).height_map
      = (r.2.1.deposited r.1.x r.1.y (r.1.dirt * 0.1)).height_map :=
    copySlice_same_length _ _ (by rw [deposited_length, hrlen])
  unfold simulateDrop
  simp only [hr, ok_bind, AdjustTerrainAt_eq hrwf, pure_eq_ok, hcopy]
  refine ⟨_, rfl, ?_, deposited_WF hrwf _ _ _, ?_, hQ _ _ _ _ hrwf hrq, rfl, rfl, ?_, rfl⟩
  · unfold Terrain.WF
    simp only [deposited_length, hrlen]
    exact h1
  · simp only
  · simp only [deposited_length, hrlen]

/-- The whole simulation always ends; the terrain it leaves is well formed,
has the dimensions and length of the input, and keeps any property `Q` of the
height map that a deposit keeps. -/
theorem RunErosionSimulation_inv (sqrt : ℚ → ℚ) (rnd : ℕ → ℚ) (Q : List ℚ → Prop)
    (hQ : ∀ (tc : Terrain) (x y dh : ℚ), tc.WF → Q tc.height_map →
      Q (tc.deposited x y dh).height_map)
    {t : Terrain} (hwf : t.WF) (hq : Q t.height_map) (num_drops : ℤ) :
    ∃ t2, t.RunErosionSimulation sqrt rnd num_drops = .ok t2 ∧ t2.WF ∧
      t2.width = t.width ∧ t2.height = t.height ∧
      t2.height_map.length = t.height_map.length ∧ Q t2.height_map := by
  obtain ⟨s2, hrun, hs1, -, -, -, hw, hh, hl, hq2⟩ := forLoop_inv (simulateDrop sqrt rnd)
    (fun s => s.1.WF ∧ s.2.WF ∧ s.2.height_map.length = s.1.height_map.length ∧
      Q s.2.height_map ∧ s.1.width = t.width ∧ s.1.height = t.height ∧
      s.1.height_map.length = t.height_map.length ∧ Q s.1.height_map)
    (by
      rintro k s ⟨a1, a2, a3, a4, a5, a6, a7, -⟩
      obtain ⟨s2, e, b1, b2, b3, b4, b5, b6, b7, b8⟩ :=
        simulateDrop_inv sqrt rnd Q hQ k s a1 a2 a3 a4
      exact ⟨s2, e, b1, b2, b3, b4, b5.trans a5, b6.trans a6, b7.trans a7, by rw [b8]; exact b4⟩)
    num_drops.toNat (t, t) ⟨hwf, hwf, rfl, hq, rfl, rfl, rfl, hq⟩
  unfold Terrain.RunErosionSimulation
  simp only [Copy_eq hwf, ok_bind, hrun, pure_eq_ok]
  exact ⟨_, rfl, hs1, hw, hh, hl, hq2⟩

/-- A deposit of 0 returns the terrain as it is. -/
theorem deposited_zero {t : Terrain} (hwf : t.WF) (x y : ℚ) : t.deposited x y 0 = t := by
  unfold Terrain.deposited
  simp only [zero_mul]
  have key : ∀ (cx cy : ℤ) (lo hi : ℚ), (lo ≤ t.cell cx cy ∧ t.cell cx cy ≤ hi) →
      t.adjusted cx cy 0 lo hi = t := by
    intro cx cy lo hi hb
    apply adjusted_eq_self hwf
    intro _
    rw [add_zero, max_eq_left hb.1, min_eq_left hb.2]
  have hlo := cornerMin_le t (trunc x) (trunc y)
  have hhi := le_cornerMax t (trunc x) (trunc y)
  rw [key _ _ _ _ ⟨hlo.1, hhi.1⟩, key _ _ _ _ ⟨hlo.2.1, hhi.2.1⟩,
    key _ _ _ _ ⟨hlo.2.2.1, hhi.2.2.1⟩, key _ _ _ _ ⟨hlo.2.2.2, hhi.2.2.2⟩]

/-- The drop a step loop ends with, and the number of its passes, do not
depend on the working copy the erosion is written to. -/
theorem dropLoop_copy_irrelevant (sqrt : ℚ → ℚ) {t : Terrain} (hwf : t.WF) :
    ∀ (fuel : ℕ) (sim_i : ℤ) (drop : RainDrop) (tc tc2 : Terrain), tc.WF → tc2.WF →
      ∃ r r2, dropLoop sqrt t fuel sim_i drop tc = .ok r ∧
        dropLoop sqrt t fuel sim_i drop tc2 = .ok r2 ∧ r.1 = r2.1 ∧ r.2.2 = r2.2.2 := by
  intro fuel
  induction fuel with
  | zero =>
    intro sim_i drop tc tc2 _ _
    exact ⟨(drop, tc, 0), (drop, tc2, 0), rfl, rfl, rfl, rfl⟩
  | succ n ih =>
    intro sim_i drop tc tc2 h1 h2
    unfold dropLoop
    split_ifs with hout
    · exact ⟨(drop, tc, 0), (drop, tc2, 0), rfl, rfl, rfl, rfl⟩
    · rw [AccelerationAtFractional_eq hwf]
      simp only [ok_bind]
      rw [AdjustTerrainAt_eq h1, AdjustTerrainAt_eq h2]
      simp only [ok_bind]
      split_ifs with hstall
      · exact ⟨_, _, rfl, rfl, rfl, rfl⟩
      · obtain ⟨r, r2, hr, hr2, e1, e2⟩ := ih (sim_i + 1) _ _ _
          (deposited_WF h1 _ _ _) (deposited_WF h2 _ _ _)
        rw [hr, hr2]
        exact ⟨_, _, rfl, rfl, e1, by simp only [ok_bind, pure_eq_ok, e2]⟩

/-! ## Claims on the erosion simulation -/

/-- C11: for every terrain, every number of drops and every sequence of spawn
draws, `RunErosionSimulation` ends and leaves the terrain's width, height and
height-map length unchanged; and the step loop of a drop, on any visible
terrain and working copy, ends after at most 2000 passes. -/
theorem C11_RunErosionSimulation_dimensions (sqrt : ℚ → ℚ) (rnd : ℕ → ℚ) (t : Terrain)
    (hwf : t.WF) (num_drops : ℤ) :
    (∃ t2, t.RunErosionSimulation sqrt rnd num_drops = .ok t2 ∧ t2.width = t.width ∧
      t2.height = t.height ∧ t2.height_map.length = t.height_map.length ∧
      (t2.height_map.length : ℤ) = t.width * t.height) ∧
    (∀ (tv tc : Terrain) (drop : RainDrop), tv.WF → tc.WF →
      ∃ r, dropLoop sqrt tv 2000 0 drop tc = .ok r ∧ r.2.2 ≤ 2000) := by
  constructor
  · obtain ⟨t2, hrun, -, hw, hh, hl, -⟩ := RunErosionSimulation_inv sqrt rnd (fun _ => True)
      (fun _ _ _ _ _ _ => trivial) hwf trivial num_drops
    exact ⟨t2, hrun, hw, hh, hl, by rw [hl]; exact hwf⟩
  · intro tv tc drop hv hc
    obtain ⟨r, hr, -, hle⟩ := dropLoop_inv sqrt hv Terrain.WF (fun _ h => h)
      (fun _ x y dh h => deposited_WF h x y dh) 2000 0 drop tc hc
    exact ⟨r, hr, hle⟩

/-- Witness of C11 on the demo terrain with three drops spawned at the
centre. -/
theorem C11_RunErosionSimulation_dimensions_witness :
    demo.WF ∧
    (∃ t2, demo.RunErosionSimulation (fun v => v) (fun _ => 1/2) 3 = .ok t2 ∧
      t2.width = demo.width ∧ t2.height = demo.height ∧
      t2.height_map.length = demo.height_map.length ∧
      (t2.height_map.length : ℤ) = demo.width * demo.height) :=
  ⟨by decide,
    (C11_RunErosionSimulation_dimensions (fun v => v) (fun _ => 1/2) demo (by decide) 3).1⟩

/-- C12: a drop that starts outside `[0,width] x [0,height]` with no sediment
makes no pass of its step loop, keeps its sediment 0 and leaves the working
copy untouched, and its final deposit leaves every cell unchanged; so the
whole drop leaves the working copy as it was. -/
theorem C12_drop_outside_never_steps (sqrt : ℚ → ℚ) (t tc : Terrain) (hwf : tc.WF)
    (drop : RainDrop) (hdirt : drop.dirt = 0)
    (hout : drop.x < 0 ∨ drop.y < 0 ∨ drop.x > (t.width : ℚ) ∨ drop.y > (t.height : ℚ)) :
    dropLoop sqrt t 2000 0 drop tc = .ok (drop, tc, 0) ∧
    tc.AdjustTerrainAt drop.x drop.y (drop.dirt * 0.1) = .ok tc := by
  constructor
  · show dropLoop sqrt t (1999 + 1) 0 drop tc = _
    unfold dropLoop
    rw [if_pos hout]
  · rw [hdirt, zero_mul, AdjustTerrainAt_eq hwf, deposited_zero hwf]

/-- Witness of C12 on the demo terrain: a drop starting at (-1, 1). -/
theorem C12_drop_outside_never_steps_witness :
    demo.WF ∧
    dropLoop (fun v => v) demo 2000 0 { x := -1, y := 1, vx := 0, vy := 0, dirt := 0 } demo
      = .ok ({ x := -1, y := 1, vx := 0, vy := 0, dirt := 0 }, demo, 0) ∧
    demo.AdjustTerrainAt (-1) 1 (0 * 0.1) = .ok demo :=
  ⟨by decide,
    C12_drop_outside_never_steps (fun v => v) demo demo (by decide)
      { x := -1, y := 1, vx := 0, vy := 0, dirt := 0 } rfl (Or.inl (by norm_num))⟩

/-- C18: during the step loop of a drop the visible terrain `t` is only read:
the drop the loop ends with and the number of its passes, for every bound on
the passes, are the same whatever working copy the erosion is written to, so
they depend only on the spawned drop and on `t`; and after the final deposit
of drop `i` the visible height map equals the working copy, with the
dimensions of the visible terrain unchanged. -/
theorem C18_drop_granularity (sqrt : ℚ → ℚ) (rnd : ℕ → ℚ) (i : ℕ) (t tc : Terrain)
    (hwf : t.WF) (hwfc : tc.WF) (hlen : tc.height_map.length = t.height_map.length) :
    (∀ (fuel : ℕ) (sim_i : ℤ) (drop : RainDrop) (tc2 : Terrain), tc2.WF →
      ∃ r r2, dropLoop sqrt t fuel sim_i drop tc = .ok r ∧
        dropLoop sqrt t fuel sim_i drop tc2 = .ok r2 ∧ r.1 = r2.1 ∧ r.2.2 = r2.2.2) ∧
    (∃ s2, simulateDrop sqrt rnd i (t, tc) = .ok s2 ∧ s2.1.width = t.width ∧
      s2.1.height = t.height ∧ s2.1.height_map = s2.2.height_map) := by
  constructor
  · intro fuel sim_i drop tc2 h2
    exact dropLoop_copy_irrelevant sqrt hwf fuel sim_i drop tc tc2 hwfc h2
  · obtain ⟨s2, hrun, -, -, -, -, hw, hh, -, heq⟩ := simulateDrop_inv sqrt rnd (fun _ => True)
      (fun _ _ _ _ _ _ => trivial) i (t, tc) hwf hwfc hlen trivial
    exact ⟨s2, hrun, hw, hh, heq⟩

/-- Witness of C18 on the demo terrain, the working copy being the flat
terrain. -/
theorem C18_drop_granularity_witness :
    demo.WF ∧ flatDemo.WF ∧ flatDemo.height_map.length = demo.height_map.length ∧
    (∃ s2, simulateDrop (fun v => v) (fun _ => 1/2) 0 (demo, flatDemo) = .ok s2 ∧
      s2.1.width = demo.width ∧ s2.1.height = demo.height ∧
      s2.1.height_map = s2.2.height_map) :=
  ⟨by decide, by decide, by decide,
    (C18_drop_granularity (fun v => v) (fun _ => 1/2) 0 demo flatDemo (by decide) (by decide)
      (by decide)).2⟩

/-- C19: erosion creates no new extremes.  If every height of the input lies
in `[lo, hi]` with `lo ≤ 0 ≤ hi` (as `lo = min(0,m)`, `hi = max(0,M)` do),
`RunErosionSimulation` ends and every height of the result lies in `[lo, hi]`;
in particular an all-zero terrain is left all-zero. -/
theorem C19_erosion_no_new_extremes (sqrt : ℚ → ℚ) (rnd : ℕ → ℚ) (t : Terrain) (hwf : t.WF)
    (num_drops : ℤ) (lo hi : ℚ) (hlo : lo ≤ 0) (hhi : 0 ≤ hi)
    (hb : ∀ v ∈ t.height_map, lo ≤ v ∧ v ≤ hi) :
    ∃ t2, t.RunErosionSimulation sqrt rnd num_drops = .ok t2 ∧
      (∀ v ∈ t2.height_map, lo ≤ v ∧ v ≤ hi) ∧
      ((∀ v ∈ t.height_map, v = 0) → ∀ v ∈ t2.height_map, v = 0) := by
  obtain ⟨t2, hrun, -, -, -, -, hq⟩ := RunErosionSimulation_inv sqrt rnd
    (fun hm => ∀ v ∈ hm, lo ≤ v ∧ v ≤ hi)
    (fun tc x y dh _ h => deposited_bounded (t := tc) h hlo hhi x y dh) hwf hb num_drops
  refine ⟨t2, hrun, hq, ?_⟩
  intro hz
  obtain ⟨t3, hrun3, -, -, -, -, hq3⟩ := RunErosionSimulation_inv sqrt rnd
    (fun hm => ∀ v ∈ hm, (0 : ℚ) ≤ v ∧ v ≤ 0)
    (fun tc x y dh _ h => deposited_bounded (t := tc) h le_rfl le_rfl x y dh) hwf
    (fun v hv => by rw [hz v hv]; exact ⟨le_rfl, le_rfl⟩) num_drops
  rw [hrun] at hrun3
  cases hrun3
  intro v hv
  exact le_antisymm (hq3 v hv).2 (hq3 v hv).1

/-- Witness of C19 on the demo terrain (heights 1..4, bounds 0 and 4) with
two drops. -/
theorem C19_erosion_no_new_extremes_witness :
    demo.WF ∧ (0 : ℚ) ≤ 0 ∧ (0 : ℚ) ≤ 4 ∧ (∀ v ∈ demo.height_map, (0 : ℚ) ≤ v ∧ v ≤ 4) ∧
    ∃ t2, demo.RunErosionSimulation (fun v => v) (fun _ => 1/2) 2 = .ok t2 ∧
      (∀ v ∈ t2.height_map, (0 : ℚ) ≤ v ∧ v ≤ 4) ∧
      ((∀ v ∈ demo.height_map, v = 0) → ∀ v ∈ t2.height_map, v = 0) :=
  ⟨by decide, le_rfl, by norm_num, by norm_num [demo],
    C19_erosion_no_new_extremes (fun v => v) (fun _ => 1/2) demo (by decide) 2 0 4 le_rfl
      (by norm_num) (by norm_num [demo])⟩

/-! ## Noise generation -/

theorem sliceGet_natCast {hm : List ℚ} {i : ℕ} (h : i < hm.length) :
    sliceGet hm (i : ℤ) = .ok (hm.getD i 0) := by
  unfold sliceGet
  have : (0 : ℤ) ≤ (i : ℤ) ∧ (i : ℤ) < (hm.length : ℤ) := ⟨by omega, by omega⟩
  simp [this]

/-- A counted loop whose pass `x` adds `c x` to the slot at the running index
and advances it: after `k` passes from index `i` the slots `i .. i+k-1` have
grown by `c 0 .. c (k-1)` and every other slot is untouched.  The third
component of the state is threaded freely. -/
theorem forLoop_accum {G : Type} (body : ℕ → ℤ × List ℚ × G → Except Fault (ℤ × List ℚ × G))
    (c : ℕ → ℚ)
    (hbody : ∀ (x i : ℕ) (hm : List ℚ) (g : G), i < hm.length →
      ∃ g2, body x ((i : ℤ), hm, g) = .ok ((i : ℤ) + 1, hm.set i (hm.getD i 0 + c x), g2))
    (k i : ℕ) (hm : List ℚ) (g : G) (hlen : i + k ≤ hm.length) :
    ∃ hm2 g2, forLoop body k ((i : ℤ), hm, g) = .ok (((i + k : ℕ) : ℤ), hm2, g2) ∧
      hm2.length = hm.length ∧
      (∀ j, j < k → hm2[i + j]? = some (hm.getD (i + j) 0 + c j)) ∧
      (∀ m, (m < i ∨ i + k ≤ m) → hm2[m]? = hm[m]?) := by
  induction k with
  | zero =>
    exact ⟨hm, g, rfl, rfl, fun j hj => absurd hj (Nat.not_lt_zero j), fun _ _ => rfl⟩
  | succ k ih =>
    obtain ⟨hm1, g1, hrun, hl1, hfill, hframe⟩ := ih (by omega)
    have hlt : i + k < hm1.length := by omega
    obtain ⟨g2, hstep⟩ := hbody k (i + k) hm1 g1 hlt
    have hold : hm1.getD (i + k) 0 = hm.getD (i + k) 0 := by
      rw [List.getD_eq_getElem?_getD, List.getD_eq_getElem?_getD, hframe (i + k) (Or.inr le_rfl)]
    refine ⟨hm1.set (i + k) (hm.getD (i + k) 0 + c k), g2, ?_, ?_, ?_, ?_⟩
    · show (forLoop body k ((i : ℤ), hm, g) >>= body k) = _
      rw [hrun, ok_bind, hstep, hold]
      simp only [Nat.cast_add, Nat.cast_one, add_assoc]
    · simp [hl1]
    · intro j hj
      by_cases hjk : j = k
      · subst hjk
        simp [List.getElem?_set, hlt]
      · have : i + k ≠ i + j := by omega
        rw [List.getElem?_set_ne this]
        exact hfill j (by omega)
    · intro m hm'
      have : i + k ≠ m := by omega
      rw [List.getElem?_set_ne this]
      exact hframe m (by omega)

/-- Two nested counted loops over `r` rows of `cols` columns that add `c y x`
to the slot at the running index: afterwards slot `y*cols + x` has grown by
`c y x` and the slots from `r*cols` on are untouched. -/
theorem forLoop_accum_grid {G : Type}
    (body : ℕ → ℕ → ℤ × List ℚ × G → Except Fault (ℤ × List ℚ × G)) (c : ℕ → ℕ → ℚ)
    (hbody : ∀ (y x i : ℕ) (hm : List ℚ) (g : G), i < hm.length →
      ∃ g2, body y x ((i : ℤ), hm, g) = .ok ((i : ℤ) + 1, hm.set i (hm.getD i 0 + c y x), g2))
    (cols r : ℕ) (hm : List ℚ) (g : G) (hlen : r * cols ≤ hm.length) :
    ∃ hm2 g2, forLoop (fun y s => forLoop (body y) cols s) r ((0 : ℤ), hm, g)
        = .ok (((r * cols : ℕ) : ℤ), hm2, g2) ∧
      hm2.length = hm.length ∧
      (∀ y x, y < r → x < cols →
        hm2[y * cols + x]? = some (hm.getD (y * cols + x) 0 + c y x)) ∧
      (∀ m, r * cols ≤ m → hm2[m]? = hm[m]?) := by
  induction r with
  | zero =>
    refine ⟨hm, g, ?_, rfl, fun y x hy _ => absurd hy (Nat.not_lt_zero y), fun _ _ => rfl⟩
    simp [forLoop]
  | succ r ih =>
    have hmul : (r + 1) * cols = r * cols + cols := Nat.succ_mul r cols
    obtain ⟨hm1, g1, hrun, hl1, hfill, hrest⟩ := ih (by omega)
    obtain ⟨hm2, g2, hrow, hl2, hnew, hframe⟩ :=
      forLoop_accum (body r) (c r) (hbody r) cols (r * cols) hm1 g1 (by omega)
    refine ⟨hm2, g2, ?_, by omega, ?_, ?_⟩
    · show (forLoop (fun y s => forLoop (body y) cols s) r ((0 : ℤ), hm, g) >>=
        fun s => forLoop (body r) cols s) = _
      rw [hrun, ok_bind, hrow, hmul]
    · intro y x hy hx
      by_cases hyr : y = r
      · subst hyr
        rw [hnew x hx, List.getD_eq_getElem?_getD, List.getD_eq_getElem?_getD,
          hrest _ (Nat.le_add_right _ _)]
      · have hylt : y < r := by omega
        have hle : (y + 1) * cols ≤ r * cols := Nat.mul_le_mul_right cols (by omega)
        have : y * cols + x < r * cols := by
          rw [Nat.succ_mul] at hle
          omega
        rw [hframe _ (Or.inl this)]
        exact hfill y x hylt hx
    · intro m hm'
      rw [hframe m (Or.inr (by omega)), hrest m (by omega)]

theorem sampleRow_fst {G : Type} (R : Rand G) (seed x0 yrow : ℤ) (xt : ℚ) (g : G) :
    (sampleRow R seed x0 yrow xt g).1 =
      Interp (latticeNoise R seed (x0 - 1) yrow) (latticeNoise R seed x0 yrow)
        (latticeNoise R seed (x0 + 1) yrow) (latticeNoise R seed (x0 + 2) yrow) xt := rfl

/-- One cell of one layer: with a non-zero period and the index inside the
height map, the pass succeeds and adds `layerValue * amplitude` to the slot. -/
theorem generateCell_eq {G : Type} (R : Rand G) (seed : ℤ) (p_i : ℕ) {period : ℚ}
    (hp : period ≠ 0) (amplitude : ℚ) (y x i : ℕ) (hm : List ℚ) (g : G)
    (hi : i < hm.length) :
    ∃ g2, generateCell R seed p_i period amplitude y x ((i : ℤ), hm, g) =
      .ok ((i : ℤ) + 1,
        hm.set i (hm.getD i 0 + layerValue R ((p_i : ℤ) + seed) period x y * amplitude), g2) := by
  unfold generateCell fdiv
  simp only [hp, if_false, ok_bind, sliceGet_natCast hi, sliceSet_natCast hi, pure_eq_ok,
    sampleRow_fst]
  exact ⟨_, rfl⟩

/-- One layer: with a non-zero period, on a height map of at least
`height*width` slots, the pass succeeds, scales amplitude and period, and adds
`layerValue * amplitude` to every slot of the grid. -/
theorem generateLayer_eq {G : Type} (R : Rand G) (width height : ℤ) (seed : ℤ) (p_i : ℕ)
    (amplitude : ℚ) {period : ℚ} (hp : period ≠ 0) (hm : List ℚ) (g : G)
    (hlen : height.toNat * width.toNat ≤ hm.length) :
    ∃ hm2 g2, generateLayer R width height seed p_i (amplitude, period, hm, g) =
        .ok (amplitude * 0.3, period * 0.5, hm2, g2) ∧
      hm2.length = hm.length ∧
      ∀ y x, y < height.toNat → x < width.toNat → hm2.getD (y * width.toNat + x) 0 =
        hm.getD (y * width.toNat + x) 0
          + layerValue R ((p_i : ℤ) + seed) period x y * amplitude := by
  obtain ⟨hm2, g2, hrun, hl, hfill, -⟩ := forLoop_accum_grid
    (fun y x s => generateCell R seed p_i period amplitude y x s)
    (fun y x => layerValue R ((p_i : ℤ) + seed) period x y * amplitude)
    (fun y x i hm g hi => generateCell_eq R seed p_i hp amplitude y x i hm g hi)
    width.toNat height.toNat hm g hlen
  refine ⟨hm2, g2, ?_, hl, ?_⟩
  · unfold generateLayer
    simp only [hrun, ok_bind, pure_eq_ok]
  · intro y x hy hx
    rw [List.getD_eq_getElem?_getD, hfill y x hy hx, Option.getD_some]

/-- The four layers of `GenerateTerrain`: on a height map of at least
`height*width` slots the method succeeds, keeps the length, and adds to every
slot of the grid the four layer values scaled by the amplitudes
`100, 100*0.3, ...` at the periods `16, 16*0.5, ...`. -/
theorem GenerateTerrain_eq {G : Type} (R : Rand G) (t : Terrain) (seed : ℤ) (g : G)
    (hlen : t.height.toNat * t.width.toNat ≤ t.height_map.length) :
    ∃ hm2 g2, t.GenerateTerrain R seed g = .ok ({ t with height_map := hm2 }, g2) ∧
      hm2.length = t.height_map.length ∧
      ∀ y x, y < t.height.toNat → x < t.width.toNat →
        hm2.getD (y * t.width.toNat + x) 0 =
          t.height_map.getD (y * t.width.toNat + x) 0
            + layerValue R ((0 : ℕ) + seed) 16 x y * 100
            + layerValue R ((1 : ℕ) + seed) (16 * 0.5) x y * (100 * 0.3)
            + layerValue R ((2 : ℕ) + seed) (16 * 0.5 * 0.5) x y * (100 * 0.3 * 0.3)
            + layerValue R ((3 : ℕ) + seed) (16 * 0.5 * 0.5 * 0.5) x y
                * (100 * 0.3 * 0.3 * 0.3) := by
  obtain ⟨hm1, g1, e1, l1, c1⟩ := generateLayer_eq R t.width t.height seed 0 100
    (by norm_num : (16 : ℚ) ≠ 0) t.height_map g hlen
  obtain ⟨hm2, g2, e2, l2, c2⟩ := generateLayer_eq R t.width t.height seed 1 (100 * 0.3)
    (by norm_num : (16 * 0.5 : ℚ) ≠ 0) hm1 g1 (by omega)
  obtain ⟨hm3, g3, e3, l3, c3⟩ := generateLayer_eq R t.width t.height seed 2 (100 * 0.3 * 0.3)
    (by norm_num : (16 * 0.5 * 0.5 : ℚ) ≠ 0) hm2 g2 (by omega)
  obtain ⟨hm4, g4, e4, l4, c4⟩ := generateLayer_eq R t.width t.height seed 3
    (100 * 0.3 * 0.3 * 0.3) (by norm_num : (16 * 0.5 * 0.5 * 0.5 : ℚ) ≠ 0) hm3 g3 (by omega)
  refine ⟨hm4, g4, ?_, by omega, ?_⟩
  · unfold Terrain.GenerateTerrain
    have : forLoop (generateLayer R t.width t.height seed) 4 (100, 16, t.height_map, g)
        = .ok (100 * 0.3 * 0.3 * 0.3 * 0.3, 16 * 0.5 * 0.5 * 0.5 * 0.5, hm4, g4) := by
      show ((((Except.ok _ >>= generateLayer R t.width t.height seed 0)
        >>= generateLayer R t.width t.height seed 1)
        >>= generateLayer R t.width t.height seed 2)
        >>= generateLayer R t.width t.height seed 3) = _
      rw [ok_bind, e1, ok_bind, e2, ok_bind, e3, ok_bind, e4]
    rw [this]
    rfl
  · intro y x hy hx
    rw [c4 y x hy hx, c3 y x hy hx, c2 y x hy hx, c1 y x hy hx]

/-- A counted loop respects a projection of its state that every pass
respects: runs from states with equal projections end alike, in the same
fault or in states with equal projections. -/
theorem forLoop_proj {σ τ : Type} (proj : σ → τ) (body : ℕ → σ → Except Fault σ)
    (hbody : ∀ k s1 s2, proj s1 = proj s2 →
      Except.map proj (body k s1) = Except.map proj (body k s2))
    (n : ℕ) (s1 s2 : σ) (h : proj s1 = proj s2) :
    Except.map proj (forLoop body n s1) = Except.map proj (forLoop body n s2) := by
  induction n with
  | zero => simp [forLoop, Except.map, h]
  | succ k ih =>
    show Except.map proj (forLoop body k s1 >>= body k)
      = Except.map proj (forLoop body k s2 >>= body k)
    cases h1 : forLoop body k s1 with
    | error e1 =>
      cases h2 : forLoop body k s2 with
      | error e2 =>
        rw [h1, h2] at ih
        simpa [Except.map] using ih
      | ok b =>
        rw [h1, h2] at ih
        simp [Except.map] at ih
    | ok a =>
      cases h2 : forLoop body k s2 with
      | error e2 =>
        rw [h1, h2] at ih
        simp [Except.map] at ih
      | ok b =>
        rw [h1, h2] at ih
        have hab : proj a = proj b := by simpa [Except.map] using ih
        rw [ok_bind, ok_bind]
        exact hbody k a b hab

/-- The index and height map one cell pass leaves do not depend on the state
of the shared generator. -/
theorem generateCell_proj {G : Type} (R : Rand G) (seed : ℤ) (p_i : ℕ) (period amplitude : ℚ)
    (y x : ℕ) (s1 s2 : ℤ × List ℚ × G) (h : (s1.1, s1.2.1) = (s2.1, s2.2.1)) :
    Except.map (fun s : ℤ × List ℚ × G => (s.1, s.2.1))
        (generateCell R seed p_i period amplitude y x s1)
      = Except.map (fun s : ℤ × List ℚ × G => (s.1, s.2.1))
        (generateCell R seed p_i period amplitude y x s2) := by
  obtain ⟨i1, hm1, g1⟩ := s1
  obtain ⟨i2, hm2, g2⟩ := s2
  simp only [Prod.mk.injEq] at h
  obtain ⟨rfl, rfl⟩ := h
  unfold generateCell
  cases fdiv (x : ℚ) period with
  | error e => rfl
  | ok xp =>
    cases fdiv (y : ℚ) period with
    | error e => rfl
    | ok yp =>
      simp only [ok_bind, sampleRow_fst]
      cases sliceGet hm1 i1 with
      | error e => rfl
      | ok old =>
        simp only [ok_bind]
        cases sliceSet hm1 i1 _ with
        | error e => rfl
        | ok hm => rfl

/-- The amplitude, period and height map one layer leaves do not depend on
the state of the shared generator. -/
theorem generateLayer_proj {G : Type} (R : Rand G) (width height seed : ℤ) (p_i : ℕ)
    (s1 s2 : ℚ × ℚ × List ℚ × G) (h : (s1.1, s1.2.1, s1.2.2.1) = (s2.1, s2.2.1, s2.2.2.1)) :
    Except.map (fun s : ℚ × ℚ × List ℚ × G => (s.1, s.2.1, s.2.2.1))
        (generateLayer R width height seed p_i s1)
      = Except.map (fun s : ℚ × ℚ × List ℚ × G => (s.1, s.2.1, s.2.2.1))
        (generateLayer R width height seed p_i s2) := by
  obtain ⟨a1, p1, hm1, g1⟩ := s1
  obtain ⟨a2, p2, hm2, g2⟩ := s2
  simp only [Prod.mk.injEq] at h
  obtain ⟨rfl, rfl, rfl⟩ := h
  have key := forLoop_proj (fun s : ℤ × List ℚ × G => (s.1, s.2.1))
    (fun y st => forLoop (fun x st => generateCell R seed p_i p1 a1 y x st) width.toNat st)
    (fun y s1 s2 hs => forLoop_proj (fun s : ℤ × List ℚ × G => (s.1, s.2.1))
      (fun x st => generateCell R seed p_i p1 a1 y x st)
      (fun x s1 s2 hs => generateCell_proj R seed p_i p1 a1 y x s1 s2 hs) width.toNat s1 s2 hs)
    height.toNat ((0 : ℤ), hm1, g1) ((0 : ℤ), hm1, g2) rfl
  unfold generateLayer
  simp only
  cases h1 : forLoop (fun y st => forLoop (fun x st => generateCell R seed p_i p1 a1 y x st)
      width.toNat st) height.toNat ((0 : ℤ), hm1, g1) with
  | error e1 =>
    cases h2 : forLoop (fun y st => forLoop (fun x st => generateCell R seed p_i p1 a1 y x st)
        width.toNat st) height.toNat ((0 : ℤ), hm1, g2) with
    | error e2 =>
      rw [h1, h2] at key
      simpa [Except.map] using key
    | ok b =>
      rw [h1, h2] at key
      simp [Except.map] at key
  | ok a =>
    cases h2 : forLoop (fun y st => forLoop (fun x st => generateCell R seed p_i p1 a1 y x st)
        width.toNat st) height.toNat ((0 : ℤ), hm1, g2) with
    | error e2 =>
      rw [h1, h2] at key
      simp [Except.map] at key
    | ok b =>
      rw [h1, h2] at key
      have hab : a.1 = b.1 ∧ a.2.1 = b.2.1 := by simpa [Except.map] using key
      simp [Except.map, hab.2]

/-- The terrain `GenerateTerrain` leaves does not depend on the state of the
shared generator it starts from. -/
theorem GenerateTerrain_proj {G : Type} (R : Rand G) (t : Terrain) (seed : ℤ) (g1 g2 : G) :
    Except.map Prod.fst (t.GenerateTerrain R seed g1)
      = Except.map Prod.fst (t.GenerateTerrain R seed g2) := by
  have key := forLoop_proj (fun s : ℚ × ℚ × List ℚ × G => (s.1, s.2.1, s.2.2.1))
    (generateLayer R t.width t.height seed)
    (fun k s1 s2 hs => generateLayer_proj R t.width t.height seed k s1 s2 hs)
    4 (100, 16, t.height_map, g1) (100, 16, t.height_map, g2) rfl
  unfold Terrain.GenerateTerrain
  cases h1 : forLoop (generateLayer R t.width t.height seed) 4 (100, 16, t.height_map, g1) with
  | error e1 =>
    cases h2 : forLoop (generateLayer R t.width t.height seed) 4
        (100, 16, t.height_map, g2) with
    | error e2 =>
      rw [h1, h2] at key
      simpa [Except.map] using key
    | ok b =>
      rw [h1, h2] at key
      simp [Except.map] at key
  | ok a =>
    cases h2 : forLoop (generateLayer R t.width t.height seed) 4
        (100, 16, t.height_map, g2) with
    | error e2 =>
      rw [h1, h2] at key
      simp [Except.map] at key
    | ok b =>
      rw [h1, h2] at key
      have hab : a.1 = b.1 ∧ a.2.1 = b.2.1 ∧ a.2.2.1 = b.2.2.1 := by
        simpa [Except.map] using key
      simp [Except.map, hab.2.2]

/-- For a positive period the value `generateCell` computes is the spec's
bicubic value: on non-negative quotients truncation is `floor`. -/
theorem layerValue_eq_bicubicSpec {G : Type} (R : Rand G) (seed : ℤ) {period : ℚ}
    (hp : 0 < period) (x y : ℕ) :
    layerValue R seed period x y = bicubicSpec R seed period (x : ℤ) (y : ℤ) := by
  have hx : trunc ((x : ℚ) / period) = ⌊(x : ℚ) / period⌋ :=
    trunc_of_nonneg (div_nonneg (Nat.cast_nonneg x) hp.le)
  have hy : trunc ((y : ℚ) / period) = ⌊(y : ℚ) / period⌋ :=
    trunc_of_nonneg (div_nonneg (Nat.cast_nonneg y) hp.le)
  unfold layerValue bicubicSpec
  simp only [hx, hy, Int.cast_natCast]
  have e0 : ∀ z : ℤ, z - 1 + 0 = z + -1 := fun z => by ring
  have e1 : ∀ z : ℤ, z - 1 + 1 = z + 0 := fun z => by ring
  have e2 : ∀ z : ℤ, z - 1 + 2 = z + 1 := fun z => by ring
  have e3 : ∀ z : ℤ, z - 1 + 3 = z + 2 := fun z => by ring
  rw [e0, e1, e2, e3]

/-- A well-formed terrain has at least `height*width` slots, also when a
dimension is negative. -/
theorem WF_grid_le {t : Terrain} (hwf : t.WF) :
    t.height.toNat * t.width.toNat ≤ t.height_map.length := by
  unfold Terrain.WF at hwf
  by_cases hw : 0 ≤ t.width
  · by_cases hh : 0 ≤ t.height
    · obtain ⟨W, hW⟩ := Int.eq_ofNat_of_zero_le hw
      obtain ⟨H, hH⟩ := Int.eq_ofNat_of_zero_le hh
      rw [hW, hH] at hwf ⊢
      simp only [Int.toNat_natCast]
      have : (t.height_map.length : ℤ) = ((W * H : ℕ) : ℤ) := by rw [hwf]; push_cast; ring
      have := Int.natCast_inj.1 this
      rw [this, Nat.mul_comm]
    · rw [Int.toNat_of_nonpos (by omega)]
      simp
  · rw [Int.toNat_of_nonpos (show t.width ≤ 0 by omega)]
    simp

/-- C17: `GenerateTerrain` runs exactly 4 layers, layer `k` with period
`16*0.5^k` and amplitude `100*0.3^k`; it succeeds, keeps the dimensions, and
every cell `(x,y)` of the grid ends as its initial value plus the sum over the
four layers of amplitude times the spec's bicubic value (lattice noise of seed
`k+seed`, `x0 = floor(x/period)`, `y0 = floor(y/period)`). -/
theorem C17_GenerateTerrain_octaves {G : Type} (R : Rand G) (t : Terrain) (hwf : t.WF)
    (seed : ℤ) (g : G) :
    ∃ t2 g2, t.GenerateTerrain R seed g = .ok (t2, g2) ∧ t2.width = t.width ∧
      t2.height = t.height ∧
      ∀ x y : ℤ, 0 ≤ x → x < t.width → 0 ≤ y → y < t.height →
        ∃ v0, t.HeightAt x y = .ok v0 ∧
          t2.HeightAt x y = .ok (v0 + ∑ k in Finset.range 4,
            100 * (0.3 : ℚ) ^ k * bicubicSpec R ((k : ℤ) + seed) (16 * (0.5 : ℚ) ^ k) x y) := by
  obtain ⟨hm2, g2, hrun, hl, hcell⟩ := GenerateTerrain_eq R t seed g (WF_grid_le hwf)
  have hwf2 : (Terrain.mk t.width t.height hm2).WF := by
    unfold Terrain.WF
    simp only [hl]
    exact hwf
  refine ⟨Terrain.mk t.width t.height hm2, g2, hrun, rfl, rfl, ?_⟩
  intro x y hx0 hxw hy0 hyh
  obtain ⟨xn, rfl⟩ := Int.eq_ofNat_of_zero_le hx0
  obtain ⟨yn, rfl⟩ := Int.eq_ofNat_of_zero_le hy0
  obtain ⟨W, hW⟩ := Int.eq_ofNat_of_zero_le (show 0 ≤ t.width by omega)
  obtain ⟨H, hH⟩ := Int.eq_ofNat_of_zero_le (show 0 ≤ t.height by omega)
  have hxn : xn < t.width.toNat := by rw [hW, Int.toNat_natCast]; omega
  have hyn : yn < t.height.toNat := by rw [hH, Int.toNat_natCast]; omega
  have hg : t.inGrid (xn : ℤ) (yn : ℤ) := ⟨hx0, hy0, by omega, by omega⟩
  have hg2 : (Terrain.mk t.width t.height hm2).inGrid (xn : ℤ) (yn : ℤ) := hg
  have hidx : ((yn : ℤ) * t.width + (xn : ℤ)).toNat = yn * t.width.toNat + xn := by
    rw [hW, Int.toNat_natCast, ← Int.natCast_mul, ← Int.natCast_add, Int.toNat_natCast]
  refine ⟨t.cell xn yn, HeightAt_eq_cell hwf _ _, ?_⟩
  rw [HeightAt_eq_cell hwf2]
  unfold Terrain.cell
  rw [if_pos hg, if_pos hg2]
  simp only [hidx]
  rw [hcell yn xn hyn hxn,
    layerValue_eq_bicubicSpec R _ (by norm_num : (0 : ℚ) < 16),
    layerValue_eq_bicubicSpec R _ (by norm_num : (0 : ℚ) < 16 * 0.5),
    layerValue_eq_bicubicSpec R _ (by norm_num : (0 : ℚ) < 16 * 0.5 * 0.5),
    layerValue_eq_bicubicSpec R _ (by norm_num : (0 : ℚ) < 16 * 0.5 * 0.5 * 0.5)]
  simp only [Finset.sum_range_succ, Finset.sum_range_zero, pow_zero, pow_one, pow_succ,
    Nat.cast_zero, Nat.cast_one, Nat.cast_ofNat, mul_one, zero_add, one_mul]
  ring_nf

theorem MakeTerrain_eq {width height : ℤ} (h : 0 ≤ width * height) :
    MakeTerrain width height
      = .ok (Terrain.mk width height (List.replicate (width * height).toNat 0)) := by
  unfold MakeTerrain makeSlice
  have : ¬ (width * height < 0) := by omega
  simp only [this, if_false, ok_bind, pure_eq_ok]

theorem MakeTerrain_WF {width height : ℤ} (h : 0 ≤ width * height) :
    (Terrain.mk width height (List.replicate (width * height).toNat 0)).WF := by
  unfold Terrain.WF
  simp only [List.length_replicate]
  omega

theorem MakeTerrain_neg {width height : ℤ} (h : width * height < 0) :
    MakeTerrain width height = .error .negativeLength := by
  unfold MakeTerrain makeSlice
  simp only [h, if_true, error_bind]

theorem toyRand_range (g : ℤ) : 0 ≤ (toyRand.float64 g).1 ∧ (toyRand.float64 g).1 < 1 := by
  have h1 : 0 ≤ g % 1000 := Int.emod_nonneg g (by norm_num)
  have h2 : g % 1000 < 1000 := Int.emod_lt_of_pos g (by norm_num)
  have h1q : (0 : ℚ) ≤ ((g % 1000 : ℤ) : ℚ) := by exact_mod_cast h1
  have h2q : ((g % 1000 : ℤ) : ℚ) < 1000 := by exact_mod_cast h2
  constructor
  · exact div_nonneg h1q (by norm_num)
  · show ((g % 1000 : ℤ) : ℚ) / 1000 < 1
    rw [div_lt_one (by norm_num)]
    exact h2q

theorem seedValue_42_0_0 : seedValue 42 0 0 = 53513572430 := by decide

/-- On a 2x2 grid with period 16 every cell falls in lattice cell `(0,0)`: the
layer value is the sample of that one lattice block at `(x/16, y/16)`. -/
theorem layerValue_block {G : Type} (R : Rand G) (seed : ℤ) {x y : ℕ} (hx : x < 2)
    (hy : y < 2) :
    layerValue R seed 16 x y = blockSample R seed ((x : ℚ) / 16) ((y : ℚ) / 16) := by
  have hxq : (x : ℚ) < 2 := by exact_mod_cast hx
  have hyq : (y : ℚ) < 2 := by exact_mod_cast hy
  have hx0 : (0 : ℚ) ≤ (x : ℚ) := Nat.cast_nonneg x
  have hy0 : (0 : ℚ) ≤ (y : ℚ) := Nat.cast_nonneg y
  have ex : trunc ((x : ℚ) / 16) = 0 := by
    rw [trunc_of_nonneg (by positivity), Int.floor_eq_iff]
    constructor
    · simp only [Int.cast_zero]; positivity
    · simp only [Int.cast_zero, zero_add]; linarith
  have ey : trunc ((y : ℚ) / 16) = 0 := by
    rw [trunc_of_nonneg (by positivity), Int.floor_eq_iff]
    constructor
    · simp only [Int.cast_zero]; positivity
    · simp only [Int.cast_zero, zero_add]; linarith
  unfold layerValue blockSample
  simp only [ex, ey, Int.cast_zero, sub_zero]
  norm_num

/-- One layer with period 16, amplitude 100 and seed 42 on the zero-filled
2x2 height map: every cell is 100 times the sample of the one lattice block
at its fraction. -/
theorem generateLayer_2x2 {G : Type} (R : Rand G) (g : G) :
    ∃ hm g2,
      (MakeTerrain 2 2 >>= fun t =>
        generateLayer R t.width t.height 42 0 (100, 16, t.height_map, g))
        = .ok (100 * 0.3, 16 * 0.5, hm, g2) ∧
      hm.length = 4 ∧
      (∀ x y : ℕ, x < 2 → y < 2 →
        hm.getD (y * 2 + x) 0 = blockSample R 42 ((x : ℚ) / 16) ((y : ℚ) / 16) * 100) := by
  rw [MakeTerrain_eq (by norm_num), ok_bind]
  have e4 : ((2 : ℤ) * 2).toNat = 4 := rfl
  have e2 : (2 : ℤ).toNat = 2 := rfl
  obtain ⟨hm, g2, hrun, hl, hcell⟩ := generateLayer_eq R 2 2 42 0 100
    (by norm_num : (16 : ℚ) ≠ 0) (List.replicate ((2 : ℤ) * 2).toNat 0) g (by decide)
  refine ⟨hm, g2, hrun, by rw [hl, e4]; rfl, ?_⟩
  intro x y hx hy
  have h := hcell y x (by rw [e2]; exact hy) (by rw [e2]; exact hx)
  rw [e2, e4] at h
  have hz : (List.replicate 4 (0 : ℚ)).getD (y * 2 + x) 0 = 0 := by
    rw [List.getD_eq_getElem?_getD, List.getElem?_replicate]
    split_ifs <;> rfl
  rw [h, hz, zero_add, Nat.cast_zero, zero_add, layerValue_block R 42 hx hy]

theorem seedValue_42_m1_0 : seedValue 42 (-1) 0 = 477523110361962274 := by decide

theorem seedValue_42_1_0 : seedValue 42 1 0 = 477522900400123954 := by decide

theorem seedValue_42_2_0 : seedValue 42 2 0 = 955045833791645589 := by decide

/-- Witness of C17 on the demo terrain with the toy generator and seed 42. -/
theorem C17_GenerateTerrain_octaves_witness :
    demo.WF ∧
    ∃ t2 g2, demo.GenerateTerrain toyRand 42 0 = .ok (t2, g2) ∧ t2.width = demo.width ∧
      t2.height = demo.height ∧
      ∀ x y : ℤ, 0 ≤ x → x < demo.width → 0 ≤ y → y < demo.height →
        ∃ v0, demo.HeightAt x y = .ok v0 ∧
          t2.HeightAt x y = .ok (v0 + ∑ k in Finset.range 4,
            100 * (0.3 : ℚ) ^ k * bicubicSpec toyRand ((k : ℤ) + 42) (16 * (0.5 : ℚ) ^ k) x y) :=
  ⟨by decide, C17_GenerateTerrain_octaves toyRand demo (by decide) 42 0⟩

/-! ## Upscaling: the sampled range -/

/-- A blend `a*(1-s) + b*s` with `0 ≤ s < 1` stays in `[lo, hi]` when `a` is
there and `b` is there unless its weight `s` is 0. -/
theorem blend_mem {lo hi a b s : ℚ} (hs0 : 0 ≤ s) (hs1 : s < 1) (ha : lo ≤ a ∧ a ≤ hi)
    (hb : s ≠ 0 → lo ≤ b ∧ b ≤ hi) : lo ≤ a * (1 - s) + b * s ∧ a * (1 - s) + b * s ≤ hi := by
  by_cases h : s = 0
  · subst h
    simpa using ha
  · obtain ⟨hb1, hb2⟩ := hb h
    have h1 : 0 ≤ 1 - s := by linarith
    constructor
    · nlinarith [mul_nonneg h1 (sub_nonneg.2 ha.1), mul_nonneg hs0 (sub_nonneg.2 hb1)]
    · nlinarith [mul_nonneg h1 (sub_nonneg.2 ha.2), mul_nonneg hs0 (sub_nonneg.2 hb2)]

/-- A read inside the grid of a well-formed terrain is a stored height. -/
theorem cell_mem {t : Terrain} (hwf : t.WF) {x y : ℤ} (h : t.inGrid x y) :
    t.cell x y ∈ t.height_map := by
  have hb := index_bounds hwf h
  have hlt : (y * t.width + x).toNat < t.height_map.length := by
    have := hb.2
    omega
  unfold Terrain.cell
  rw [if_pos h, List.getD_eq_getElem?_getD, List.getElem?_eq_getElem hlt]
  exact List.getElem_mem _

/-- A bilinear sample at a position in `[0, width-1] x [0, height-1]` lies
between bounds of the stored heights: a corner outside the grid has weight 0. -/
theorem bilinear_mem {t : Terrain} (hwf : t.WF) {lo hi : ℚ}
    (hb : ∀ v ∈ t.height_map, lo ≤ v ∧ v ≤ hi) {x y : ℚ}
    (hx0 : 0 ≤ x) (hx1 : x ≤ (t.width : ℚ) - 1) (hy0 : 0 ≤ y) (hy1 : y ≤ (t.height : ℚ) - 1) :
    lo ≤ t.bilinear x y ∧ t.bilinear x y ≤ hi := by
  have ex := trunc_of_nonneg hx0
  have ey := trunc_of_nonneg hy0
  have fx0 : 0 ≤ ⌊x⌋ := Int.floor_nonneg.2 hx0
  have fy0 : 0 ≤ ⌊y⌋ := Int.floor_nonneg.2 hy0
  have fxw : ⌊x⌋ ≤ t.width - 1 := by
    have : ((⌊x⌋ : ℤ) : ℚ) ≤ ((t.width - 1 : ℤ) : ℚ) := by
      push_cast
      exact le_trans (Int.floor_le x) hx1
    exact_mod_cast this
  have fyh : ⌊y⌋ ≤ t.height - 1 := by
    have : ((⌊y⌋ : ℤ) : ℚ) ≤ ((t.height - 1 : ℤ) : ℚ) := by
      push_cast
      exact le_trans (Int.floor_le y) hy1
    exact_mod_cast this
  have hxt0 : 0 ≤ x - (⌊x⌋ : ℚ) := by linarith [Int.floor_le x]
  have hxt1 : x - (⌊x⌋ : ℚ) < 1 := by linarith [Int.lt_floor_add_one x]
  have hyt0 : 0 ≤ y - (⌊y⌋ : ℚ) := by linarith [Int.floor_le y]
  have hyt1 : y - (⌊y⌋ : ℚ) < 1 := by linarith [Int.lt_floor_add_one y]
  have gx1 : x - (⌊x⌋ : ℚ) ≠ 0 → ⌊x⌋ + 1 ≤ t.width - 1 := by
    intro hne
    by_contra hcon
    have heq : ⌊x⌋ = t.width - 1 := by omega
    have : ((⌊x⌋ : ℤ) : ℚ) = (t.width : ℚ) - 1 := by rw [heq]; push_cast; ring
    apply hne
    linarith
  have gy1 : y - (⌊y⌋ : ℚ) ≠ 0 → ⌊y⌋ + 1 ≤ t.height - 1 := by
    intro hne
    by_contra hcon
    have heq : ⌊y⌋ = t.height - 1 := by omega
    have : ((⌊y⌋ : ℤ) : ℚ) = (t.height : ℚ) - 1 := by rw [heq]; push_cast; ring
    apply hne
    linarith
  have c00 := hb _ (cell_mem hwf (show t.inGrid ⌊x⌋ ⌊y⌋ from ⟨fx0, fy0, fxw, fyh⟩))
  have c10 : x - (⌊x⌋ : ℚ) ≠ 0 → lo ≤ t.cell (⌊x⌋ + 1) ⌊y⌋ ∧ t.cell (⌊x⌋ + 1) ⌊y⌋ ≤ hi :=
    fun h => hb _ (cell_mem hwf ⟨by omega, fy0, gx1 h, fyh⟩)
  have c01 : y - (⌊y⌋ : ℚ) ≠ 0 → lo ≤ t.cell ⌊x⌋ (⌊y⌋ + 1) ∧ t.cell ⌊x⌋ (⌊y⌋ + 1) ≤ hi :=
    fun h => hb _ (cell_mem hwf ⟨fx0, by omega, fxw, gy1 h⟩)
  have c11 : y - (⌊y⌋ : ℚ) ≠ 0 → x - (⌊x⌋ : ℚ) ≠ 0 →
      lo ≤ t.cell (⌊x⌋ + 1) (⌊y⌋ + 1) ∧ t.cell (⌊x⌋ + 1) (⌊y⌋ + 1) ≤ hi :=
    fun h h2 => hb _ (cell_mem hwf ⟨by omega, by omega, gx1 h2, gy1 h⟩)
  unfold Terrain.bilinear
  rw [ex, ey]
  exact blend_mem hyt0 hyt1 (blend_mem hxt0 hxt1 c00 c10)
    (fun h => blend_mem hxt0 hxt1 (c01 h) (c11 h))

/-- Where the scales are defined, every cell of `ScaleUp` lies between bounds
of the heights of the source. -/
theorem ScaleUp_range {t : Terrain} (hwf : t.WF) {scale : ℤ} (hw : 1 ≤ t.width)
    (hh : 1 ≤ t.height) (hs : 1 ≤ scale) (hW : t.width * scale ≠ 1)
    (hH : t.height * scale ≠ 1) {lo hi : ℚ} (hb : ∀ v ∈ t.height_map, lo ≤ v ∧ v ≤ hi) :
    ∃ t2, t.ScaleUp scale = .ok t2 ∧
      ∀ x y : ℤ, 0 ≤ x → x < t.width * scale → 0 ≤ y → y < t.height * scale →
        ∃ v, t2.HeightAt x y = .ok v ∧ lo ≤ v ∧ v ≤ hi := by
  obtain ⟨t2, hrun, -, -, -, hcell⟩ := ScaleUp_cells hwf hw hh hs hW hH
  have hW1 : 2 ≤ t.width * scale := by
    have : 1 ≤ t.width * scale := by nlinarith
    omega
  have hH1 : 2 ≤ t.height * scale := by
    have : 1 ≤ t.height * scale := by nlinarith
    omega
  have coord : ∀ (n N k : ℤ), 1 ≤ n → 2 ≤ N → 0 ≤ k → k < N → n ≤ N →
      0 ≤ (k : ℚ) * (((n - 1 : ℤ) : ℚ) / ((N - 1 : ℤ) : ℚ)) ∧
      (k : ℚ) * (((n - 1 : ℤ) : ℚ) / ((N - 1 : ℤ) : ℚ)) ≤ (n : ℚ) - 1 := by
    intro n N k hn hN hk hkN _
    have hd : (0 : ℚ) < ((N - 1 : ℤ) : ℚ) := by exact_mod_cast (show (0 : ℤ) < N - 1 by omega)
    have hnum : (0 : ℚ) ≤ ((n - 1 : ℤ) : ℚ) := by exact_mod_cast (show (0 : ℤ) ≤ n - 1 by omega)
    have hk0 : (0 : ℚ) ≤ (k : ℚ) := by exact_mod_cast hk
    have hk1 : (k : ℚ) ≤ ((N - 1 : ℤ) : ℚ) := by exact_mod_cast (show k ≤ N - 1 by omega)
    constructor
    · exact mul_nonneg hk0 (div_nonneg hnum hd.le)
    · rw [← mul_div_assoc, div_le_iff₀ hd]
      have : ((n : ℚ) - 1) = ((n - 1 : ℤ) : ℚ) := by push_cast; ring
      rw [this]
      nlinarith
  refine ⟨t2, hrun, ?_⟩
  intro x y hx0 hxW hy0 hyH
  have hwW : t.width ≤ t.width * scale := by nlinarith
  have hhH : t.height ≤ t.height * scale := by nlinarith
  obtain ⟨cx0, cx1⟩ := coord t.width (t.width * scale) x hw hW1 hx0 hxW hwW
  obtain ⟨cy0, cy1⟩ := coord t.height (t.height * scale) y hh hH1 hy0 hyH hhH
  refine ⟨_, ?_, bilinear_mem hwf hb cx0 cx1 cy0 cy1⟩
  rw [hcell x y hx0 hxW hy0 hyH, HeightAtFractional_eq hwf]

/-- C20 (failing input): scaling the terrain of width 2 and height 1 holding
`[3, 7]` by the factor 1 divides 0 by 0 for `scale_y`, so the cells of the
result are not numbers and none lies between the least height 3 and the
greatest height 7 of the source. -/
theorem C20_ScaleUp_unit_height_not_a_number :
    (Terrain.mk 2 1 [3, 7]).WF ∧ (∀ v ∈ (Terrain.mk 2 1 [3, 7]).height_map, 3 ≤ v ∧ v ≤ 7) ∧
    (Terrain.mk 2 1 [3, 7]).ScaleUp 1 = .error .notANumber := by
  refine ⟨by decide, by norm_num, ?_⟩
  norm_num [Terrain.ScaleUp, MakeTerrain, makeSlice, forLoop, scaleCell, fdiv]

end MountainGenerator
